import Mathlib

/-!
Verification development for the real-time connection registry and event
fan-out engine of the finepro backend
(`backend/app/core/websocket_manager.py` and
`backend/app/services/presence_service.py`).

The Python classes are shallowly embedded as pure Lean functions over an
explicit state record:

* Python `dict`s become association lists in insertion order (Python 3.7+
  dict semantics: assignment to an existing key updates in place, a new key
  is appended, `del` removes the entry and a later re-insertion appends at
  the end).  Iterating a dict while its size changes raises `RuntimeError`
  in CPython (the iterator compares the size at creation with the current
  size on every `next()` call); the broadcast loop models this check.
* Python `set`s of strings become duplicate-free lists.
* `WSConnection` objects are mutable and aliased from several dicts, so
  connections live in a heap (`conn_heap`) keyed by an allocation counter,
  and the dicts store heap keys.
* `await websocket.send_text(...)` is modelled by an environment `Env`
  telling for each user whether sends to that user's transport succeed;
  a successful send is recorded in an effect log.  `websocket.close()` of
  a superseded connection may also fail; the source swallows that error.
* `asyncio.sleep(d)` followed by a body (the typing/editing indicator
  reset tasks) is modelled by recording a pending reset task carrying the
  delay `d`; firing the task runs the body.
* The `asyncio.Lock` is elided: operations are modelled as atomic steps.
* Fields irrelevant to the claims (timestamps other than `connected_at`,
  `user_info`, `connection_history`, `messages_received`, presence status
  levels, logging) are elided.

Recursion note: `disconnect` broadcasts a `user_left` event, and a failing
send during a broadcast calls `disconnect`, so these functions are mutually
recursive.  A fuel parameter makes them structurally recursive; every
result distinguishes running out of fuel (`Exc.fuelExhausted`) from the
Python `RuntimeError`.  All lemmas either supply enough fuel explicitly or
hypothesise it.
-/

namespace WS

/-- Python dict lookup `d.get(k)` over an insertion-ordered association
list (first match). -/
def alookup {α β : Type} [DecidableEq α] : List (α × β) → α → Option β
  | [], _ => none
  | (k, v) :: rest, key => if key = k then some v else alookup rest key

/-- Python dict assignment `d[k] = v`: update in place if the key exists,
otherwise append (Python 3.7+ insertion order). -/
def ainsert {α β : Type} [DecidableEq α] : List (α × β) → α → β → List (α × β)
  | [], k, v => [(k, v)]
  | (k', v') :: rest, k, v => if k = k' then (k, v) :: rest else (k', v') :: ainsert rest k v

/-- Python dict deletion `del d[k]`. -/
def aerase {α β : Type} [DecidableEq α] : List (α × β) → α → List (α × β)
  | [], _ => []
  | (k', v') :: rest, k => if k = k' then aerase rest k else (k', v') :: aerase rest k

/-- Keys of an association list. -/
def akeys {α β : Type} (m : List (α × β)) : List α := m.map Prod.fst

/-- Python `set.add` on a duplicate-free list (no-op when present, else
append). -/
def sinsert (s : List String) (x : String) : List String :=
  if x ∈ s then s else s ++ [x]

/-- Python `set.discard` (and the guarded `set.remove` in `leave_room`). -/
def sdiscard (s : List String) (x : String) : List String :=
  s.filter (fun y => y ≠ x)

/-- Embedding of `WSConnection`: one live transport for one user in one
workspace.  `connected_at` is the clock value at `connect` time and
`subscriptions` is the set of room ids this connection has joined. -/
structure WSConnection where
  user_id : String
  workspace_id : String
  connected_at : Nat
  subscriptions : List String
deriving DecidableEq

/-- Embedding of the mutable state of `WebSocketManager`.  The dicts of
`WSConnection` objects store heap keys into `conn_heap` so that Python
object aliasing (the same connection reachable from
`workspace_connections` and `system_connections`) is preserved. -/
structure WSManager where
  workspace_connections : List (String × List (String × Nat))
  project_rooms : List (String × List String)
  task_rooms : List (String × List String)
  system_connections : List (String × Nat)
  conn_heap : List (Nat × WSConnection)
  next_conn : Nat
  total_connections : Int
  connections_per_workspace : List (String × Int)
  messages_sent : Nat
deriving DecidableEq

/-- The manager at process start. -/
def initWS : WSManager :=
  { workspace_connections := [], project_rooms := [], task_rooms := []
    system_connections := [], conn_heap := [], next_conn := 0
    total_connections := 0, connections_per_workspace := [], messages_sent := 0 }

/-- Dereference a connection heap key (keys handed out by the manager are
always allocated, so the default is never observed). -/
def getConn (s : WSManager) (cid : Nat) : WSConnection :=
  (alookup s.conn_heap cid).getD { user_id := "", workspace_id := "", connected_at := 0, subscriptions := [] }

/-- Embedding of a `WSMessage` as far as the claims observe it: type tag,
string payload entries, room id and origin user id. -/
structure WSMsg where
  type : String
  data : List (String × String)
  room_id : Option String
  user_id : Option String
deriving DecidableEq

/-- Observable effects of an operation, in order of occurrence. -/
inductive Effect where
  | sent (uid : String) (msg : WSMsg)
  | sendFailed (uid : String) (msg : WSMsg)
  | socketCloseAttempt (uid : String) (wsid : String) (ok : Bool)
deriving DecidableEq

/-- Exceptional outcomes: the CPython `RuntimeError` raised when a dict
changes size during iteration, and exhaustion of the modelling fuel. -/
inductive Exc where
  | runtimeError
  | fuelExhausted
deriving DecidableEq

/-- Result of an operation: final state, effect log, and the exception
propagating to the caller, if any. -/
structure Res where
  st : WSManager
  log : List Effect
  exc : Option Exc
deriving DecidableEq

/-- Normal return. -/
def Res.ok (s : WSManager) (log : List Effect) : Res :=
  { st := s, log := log, exc := none }

/-- Raise an exception to the caller. -/
def Res.raise (s : WSManager) (log : List Effect) (e : Exc) : Res :=
  { st := s, log := log, exc := some e }

/-- Sequencing: run `f` on the resulting state unless an exception is
propagating. -/
def Res.andThen (r : Res) (f : WSManager → Res) : Res :=
  match r.exc with
  | some _ => r
  | none =>
    let r2 := f r.st
    { st := r2.st, log := r.log ++ r2.log, exc := r2.exc }

/-- Prepend already-produced effects to a result. -/
def Res.withLog (pre : List Effect) (r : Res) : Res :=
  { r with log := pre ++ r.log }

/-- Transport environment: whether a send to a given user's websocket
succeeds, and whether closing that user's superseded websocket succeeds. -/
structure Env where
  sendOk : String → Bool
  closeOk : String → Bool

/-- The environment in which every transport operation succeeds. -/
def allOk : Env := { sendOk := fun _ => true, closeOk := fun _ => true }

/-- The `user_joined` message built by `WebSocketManager.connect`. -/
def userJoinedMsg (uid wsid : String) : WSMsg :=
  { type := "user_joined", data := [("user_id", uid), ("workspace_id", wsid)]
    room_id := some wsid, user_id := some "system" }

/-- The `user_left` message built by `WebSocketManager.disconnect`. -/
def userLeftMsg (uid wsid : String) : WSMsg :=
  { type := "user_left", data := [("user_id", uid), ("workspace_id", wsid)]
    room_id := some wsid, user_id := some "system" }

/-- Scan of `self.workspace_connections.values()` in insertion order for
the first dict containing `uid`, as done by `join_room` and `leave_room`. -/
def scanConnection : List (String × List (String × Nat)) → String → Option Nat
  | [], _ => none
  | (_, inner) :: rest, uid =>
    match alookup inner uid with
    | some cid => some cid
    | none => scanConnection rest uid

/-- Embedding of `WebSocketManager.join_room`: no-op for a user with no
connection; otherwise adds the room to the found connection's
subscriptions and, only for room types `"project"` and `"task"`, to the
corresponding room index. -/
def join_room (uid room_id room_type : String) (s : WSManager) : WSManager :=
  match scanConnection s.workspace_connections uid with
  | none => s
  | some cid =>
    let conn := getConn s cid
    let conn1 := { conn with subscriptions := sinsert conn.subscriptions room_id }
    let s1 := { s with conn_heap := ainsert s.conn_heap cid conn1 }
    if room_type = "project" then
      let pmembers := sinsert ((alookup s1.project_rooms room_id).getD []) uid
      { s1 with project_rooms := ainsert s1.project_rooms room_id pmembers }
    else if room_type = "task" then
      let tmembers := sinsert ((alookup s1.task_rooms room_id).getD []) uid
      { s1 with task_rooms := ainsert s1.task_rooms room_id tmembers }
    else s1

/-- Embedding of `WebSocketManager.leave_room`: removes the room from the
found connection's subscriptions (if subscribed) and discards the user
from both room indexes. -/
def leave_room (uid room_id : String) (s : WSManager) : WSManager :=
  let s1 :=
    match scanConnection s.workspace_connections uid with
    | none => s
    | some cid =>
      let conn := getConn s cid
      if room_id ∈ conn.subscriptions then
        let conn1 := { conn with subscriptions := sdiscard conn.subscriptions room_id }
        { s with conn_heap := ainsert s.conn_heap cid conn1 }
      else s
  let s2 :=
    if (alookup s1.project_rooms room_id).isSome then
      let pmembers := sdiscard ((alookup s1.project_rooms room_id).getD []) uid
      { s1 with project_rooms := ainsert s1.project_rooms room_id pmembers }
    else s1
  if (alookup s2.task_rooms room_id).isSome then
    let tmembers := sdiscard ((alookup s2.task_rooms room_id).getD []) uid
    { s2 with task_rooms := ainsert s2.task_rooms room_id tmembers }
  else s2

mutual

/-- Embedding of `WebSocketManager.disconnect`: a no-op for an absent
(user, workspace) pair; otherwise leaves every subscribed room (iterating
a copy of the subscription set), deletes the connection from both maps,
decrements the statistics and broadcasts `user_left` to the workspace. -/
def disconnect (env : Env) (uid wsid : String) (fuel : Nat) (s : WSManager) : Res :=
  match fuel with
  | 0 => Res.raise s [] Exc.fuelExhausted
  | fuel + 1 =>
    match alookup s.workspace_connections wsid with
    | none => Res.ok s []
    | some inner =>
      match alookup inner uid with
      | none => Res.ok s []
      | some cid =>
        let snapshot := (getConn s cid).subscriptions
        let s1 := snapshot.foldl (fun st r => leave_room uid r st) s
        let inner1 := aerase ((alookup s1.workspace_connections wsid).getD []) uid
        let s2 := { s1 with workspace_connections := ainsert s1.workspace_connections wsid inner1 }
        let s3 :=
          if (alookup s2.system_connections uid).isSome then
            { s2 with system_connections := aerase s2.system_connections uid }
          else s2
        let s4 := { s3 with total_connections := s3.total_connections - 1 }
        let s5 :=
          if (alookup s4.connections_per_workspace wsid).isSome then
            let cnt := ((alookup s4.connections_per_workspace wsid).getD 0) - 1
            { s4 with connections_per_workspace := ainsert s4.connections_per_workspace wsid cnt }
          else s4
        broadcast_to_workspace env wsid (userLeftMsg uid wsid) none fuel s5

/-- Embedding of `WebSocketManager.send_personal_message`: looks the user
up in `system_connections`; silently drops when absent; on a send failure
tears the connection down via `disconnect`. -/
def send_personal_message (env : Env) (uid : String) (msg : WSMsg) (fuel : Nat) (s : WSManager) : Res :=
  match fuel with
  | 0 => Res.raise s [] Exc.fuelExhausted
  | fuel + 1 =>
    match alookup s.system_connections uid with
    | none => Res.ok s []
    | some cid =>
      if env.sendOk uid then
        Res.ok { s with messages_sent := s.messages_sent + 1 } [Effect.sent uid msg]
      else
        Res.withLog [Effect.sendFailed uid msg]
          (disconnect env uid (getConn s cid).workspace_id fuel s)

/-- Embedding of `WebSocketManager.broadcast_to_workspace`: a no-op for an
unknown workspace, otherwise iterates the workspace's connection dict. -/
def broadcast_to_workspace (env : Env) (wsid : String) (msg : WSMsg) (excl : Option String) (fuel : Nat) (s : WSManager) : Res :=
  match fuel with
  | 0 => Res.raise s [] Exc.fuelExhausted
  | fuel + 1 =>
    match alookup s.workspace_connections wsid with
    | none => Res.ok s []
    | some inner => bcastWsItems env wsid msg excl fuel inner inner.length s

/-- The `for user_id, connection in self.workspace_connections[workspace_id].items()`
loop of `broadcast_to_workspace`.  On every `next()` call — before each
item and once more at exhaustion — CPython raises `RuntimeError` if the
dict's size differs from its size when the iterator was created
(`origSize`); a failing send tears the sender's connection down via
`disconnect`, which is exactly such a size change. -/
def bcastWsItems (env : Env) (wsid : String) (msg : WSMsg) (excl : Option String) (fuel : Nat) (items : List (String × Nat)) (origSize : Nat) (s : WSManager) : Res :=
  match fuel with
  | 0 => Res.raise s [] Exc.fuelExhausted
  | fuel + 1 =>
    if ((alookup s.workspace_connections wsid).getD []).length ≠ origSize then
      Res.raise s [] Exc.runtimeError
    else
      match items with
      | [] => Res.ok s []
      | (uid, _) :: rest =>
        if excl = some uid then
          bcastWsItems env wsid msg excl fuel rest origSize s
        else if env.sendOk uid then
          Res.withLog [Effect.sent uid msg]
            (bcastWsItems env wsid msg excl fuel rest origSize
              { s with messages_sent := s.messages_sent + 1 })
        else
          Res.withLog [Effect.sendFailed uid msg]
            (Res.andThen (disconnect env uid wsid fuel s)
              (fun s2 => bcastWsItems env wsid msg excl fuel rest origSize s2))

end

/-- The `for user_id in members.copy()` loop shared by
`broadcast_to_project` and `broadcast_to_task`: iterates a snapshot of the
member set, skipping the excluded user, and routes each delivery through
`send_personal_message` (which swallows send failures). -/
def sendEach (env : Env) (msg : WSMsg) (excl : Option String) (fuel : Nat) : List String → WSManager → Res
  | [], s => Res.ok s []
  | uid :: rest, s =>
    if excl = some uid then
      sendEach env msg excl fuel rest s
    else
      Res.andThen (send_personal_message env uid msg fuel s)
        (fun s2 => sendEach env msg excl fuel rest s2)

/-- Embedding of `WebSocketManager.broadcast_to_project`. -/
def broadcast_to_project (env : Env) (pid : String) (msg : WSMsg) (excl : Option String) (fuel : Nat) (s : WSManager) : Res :=
  match alookup s.project_rooms pid with
  | none => Res.ok s []
  | some members => sendEach env msg excl fuel members s

/-- Embedding of `WebSocketManager.broadcast_to_task`. -/
def broadcast_to_task (env : Env) (tid : String) (msg : WSMsg) (excl : Option String) (fuel : Nat) (s : WSManager) : Res :=
  match alookup s.task_rooms tid with
  | none => Res.ok s []
  | some members => sendEach env msg excl fuel members s

/-- Embedding of `WebSocketManager.connect`: creates and stores the new
connection (closing a superseded one for the same pair, swallowing close
errors), increments the statistics, auto-subscribes the user to the
workspace room with room type `"workspace"`, and broadcasts `user_joined`
to the workspace with no `exclude_user` argument. -/
def connect (env : Env) (now : Nat) (uid wsid : String) (fuel : Nat) (s : WSManager) : Res :=
  let cid := s.next_conn
  let conn : WSConnection :=
    { user_id := uid, workspace_id := wsid, connected_at := now, subscriptions := [] }
  let s1 := { s with conn_heap := ainsert s.conn_heap cid conn, next_conn := cid + 1 }
  let s2 :=
    if (alookup s1.workspace_connections wsid).isSome then s1
    else { s1 with workspace_connections := ainsert s1.workspace_connections wsid [] }
  let inner := (alookup s2.workspace_connections wsid).getD []
  let closeLog : List Effect :=
    match alookup inner uid with
    | some _ => [Effect.socketCloseAttempt uid wsid (env.closeOk uid)]
    | none => []
  let s3 := { s2 with
    workspace_connections := ainsert s2.workspace_connections wsid (ainsert inner uid cid)
    system_connections := ainsert s2.system_connections uid cid }
  let s4 := { s3 with total_connections := s3.total_connections + 1 }
  let cnt := ((alookup s4.connections_per_workspace wsid).getD 0) + 1
  let s5 := { s4 with connections_per_workspace := ainsert s4.connections_per_workspace wsid cnt }
  let s6 := join_room uid wsid "workspace" s5
  Res.withLog closeLog (broadcast_to_workspace env wsid (userJoinedMsg uid wsid) none fuel s6)

/-- The `task_updated` message built by `notify_task_updated`. -/
def taskUpdatedMsg (tid upd pid : String) : WSMsg :=
  { type := "task_updated", data := [("task_id", tid), ("updated_by", upd), ("project_id", pid)]
    room_id := some pid, user_id := some upd }

/-- Embedding of `WebSocketManager.notify_task_updated`: the same message
is broadcast to the project room and then to the task room, excluding the
updater from each. -/
def notify_task_updated (env : Env) (tid upd pid : String) (fuel : Nat) (s : WSManager) : Res :=
  Res.andThen (broadcast_to_project env pid (taskUpdatedMsg tid upd pid) (some upd) fuel s)
    (fun s2 => broadcast_to_task env tid (taskUpdatedMsg tid upd pid) (some upd) fuel s2)

/-- The `task_assigned` message built by `notify_task_assigned`. -/
def taskAssignedMsg (tid ato aby pid : String) : WSMsg :=
  { type := "task_assigned"
    data := [("task_id", tid), ("assigned_to", ato), ("assigned_by", aby), ("project_id", pid)]
    room_id := some pid, user_id := some aby }

/-- Embedding of `WebSocketManager.notify_task_assigned`: first a personal
message to the assignee, then a project-room broadcast excluding the
assignee. -/
def notify_task_assigned (env : Env) (tid ato aby pid : String) (fuel : Nat) (s : WSManager) : Res :=
  Res.andThen (send_personal_message env ato (taskAssignedMsg tid ato aby pid) fuel s)
    (fun s2 => broadcast_to_project env pid (taskAssignedMsg tid ato aby pid) (some ato) fuel s2)

/-! Observers used to state the claims. -/

/-- Users currently stored in a workspace's connection dict. -/
def wsMembers (s : WSManager) (wsid : String) : List String :=
  akeys ((alookup s.workspace_connections wsid).getD [])

/-- Subscription set of the connection `join_room`/`leave_room` would act
on for this user (empty when the user has no connection). -/
def subsOf (s : WSManager) (uid : String) : List String :=
  match scanConnection s.workspace_connections uid with
  | some cid => (getConn s cid).subscriptions
  | none => []

/-- Members of the Room Index entry for a room id: the union of the
project-room and task-room index entries. -/
def roomMembers (s : WSManager) (rid : String) : List String :=
  ((alookup s.project_rooms rid).getD []) ++ ((alookup s.task_rooms rid).getD [])

/-- Number of connections stored across all workspace dicts. -/
def storedConns (s : WSManager) : Nat :=
  (s.workspace_connections.map (fun e => e.2.length)).sum

/-! Registry operation traces: sequences of Connect / JoinRoom /
LeaveRoom / Disconnect, run in the all-sends-succeed environment with
enough fuel for the state at hand. -/

/-- One registry operation of a trace. -/
inductive Op where
  | connectOp (now : Nat) (uid wsid : String)
  | joinOp (uid room_id room_type : String)
  | leaveOp (uid room_id : String)
  | disconnectOp (uid wsid : String)
deriving DecidableEq

/-- Fuel that is always sufficient for one operation on state `s` when
every send succeeds. -/
def opFuel (s : WSManager) : Nat := storedConns s + 4

/-- Apply one operation (all sends succeeding). -/
def applyOp (s : WSManager) : Op → WSManager
  | .connectOp now u w => (connect allOk now u w (opFuel s) s).st
  | .joinOp u r t => join_room u r t s
  | .leaveOp u r => leave_room u r s
  | .disconnectOp u w => (disconnect allOk u w (opFuel s) s).st

/-- Run a trace from a given state. -/
def runFrom (s : WSManager) : List Op → WSManager
  | [] => s
  | op :: rest => runFrom (applyOp s op) rest

/-- Run a trace from the initial manager state. -/
def run (ops : List Op) : WSManager := runFrom initWS ops

/-- Whether some workspace dict currently stores a connection for `uid`. -/
def connectedSomewhere (s : WSManager) (uid : String) : Bool :=
  (scanConnection s.workspace_connections uid).isSome

/-- A trace from `s` is plain when every `connect` in it is for a user
with no live connection anywhere (one live connection per principal
globally — the semantics §9 of the spec recommends; no superseding
connects, no second workspace for the same principal). -/
def PlainFromB (s : WSManager) : List Op → Bool
  | [] => true
  | op :: rest =>
    (match op with
     | .connectOp _ u _ => !(connectedSomewhere s u)
     | _ => true) && PlainFromB (applyOp s op) rest

/-- A plain trace from the initial state. -/
def PlainB (ops : List Op) : Bool := PlainFromB initWS ops

/-! Embedding of the typing/editing indicator part of
`PresenceService` (`backend/app/services/presence_service.py`). -/

/-- Embedding of `UserPresence` as far as the claims observe it. -/
structure UserPresence where
  user_id : String
  workspace_id : String
  is_typing : Bool
  is_editing : Bool
deriving DecidableEq

/-- A reset task spawned by `update_activity` via
`asyncio.create_task(self._reset_typing_indicator(user_id, 10))` (or the
editing variant with delay 30): it fires once its delay has elapsed, and
nothing ever cancels it. -/
inductive ResetTask where
  | typing (uid : String) (delay : Nat)
  | editing (uid : String) (delay : Nat)
deriving DecidableEq

/-- Embedding of the mutable state of `PresenceService`: the per-user
presence dict plus the spawned, not-yet-fired reset tasks. -/
structure PresenceService where
  user_presence : List (String × UserPresence)
  pending_resets : List ResetTask
deriving DecidableEq

/-- The `user_activity_updated` message built by `update_activity`. -/
def activityMsg (uid activity_type wsid : String) : WSMsg :=
  { type := "user_activity_updated"
    data := [("user_id", uid), ("activity_type", activity_type)]
    room_id := some wsid, user_id := some uid }

/-- The `user_typing_stopped` message built by `_reset_typing_indicator`. -/
def typingStoppedMsg (uid wsid : String) : WSMsg :=
  { type := "user_typing_stopped", data := [("user_id", uid)]
    room_id := some wsid, user_id := some "system" }

/-- The `user_editing_stopped` message built by `_reset_editing_indicator`. -/
def editingStoppedMsg (uid wsid : String) : WSMsg :=
  { type := "user_editing_stopped", data := [("user_id", uid)]
    room_id := some wsid, user_id := some "system" }

/-- Embedding of `PresenceService.update_activity` restricted to the
typing/editing indicator behaviour: a no-op for an unknown user;
otherwise sets the indicator, schedules the reset task (10 seconds for
typing, 30 for editing), and broadcasts `user_activity_updated` to the
user's workspace excluding the acting user.  (The `viewing_task` /
`viewing_project` branches and the presence-status bookkeeping are
elided.) -/
def update_activity (env : Env) (uid activity_type : String) (fuel : Nat) (ps : PresenceService) (ws : WSManager) : PresenceService × Res :=
  match alookup ps.user_presence uid with
  | none => (ps, Res.ok ws [])
  | some pr =>
    let pr1 :=
      if activity_type = "typing" then { pr with is_typing := true }
      else if activity_type = "editing" then { pr with is_editing := true }
      else pr
    let resets :=
      if activity_type = "typing" then [ResetTask.typing uid 10]
      else if activity_type = "editing" then [ResetTask.editing uid 30]
      else ([] : List ResetTask)
    let ps1 := { ps with user_presence := ainsert ps.user_presence uid pr1
                         pending_resets := ps.pending_resets ++ resets }
    (ps1, broadcast_to_workspace env pr1.workspace_id (activityMsg uid activity_type pr1.workspace_id) (some uid) fuel ws)

/-- Embedding of `PresenceService._reset_typing_indicator` after its
`asyncio.sleep(delay)` has elapsed: clears the typing flag and broadcasts
`user_typing_stopped` to the user's workspace with no `exclude_user`
argument. -/
def reset_typing_indicator (env : Env) (uid : String) (fuel : Nat) (ps : PresenceService) (ws : WSManager) : PresenceService × Res :=
  match alookup ps.user_presence uid with
  | none => (ps, Res.ok ws [])
  | some pr =>
    let pr1 := { pr with is_typing := false }
    let ps1 := { ps with user_presence := ainsert ps.user_presence uid pr1 }
    (ps1, broadcast_to_workspace env pr1.workspace_id (typingStoppedMsg uid pr1.workspace_id) none fuel ws)

/-- Embedding of `PresenceService._reset_editing_indicator` after its
`asyncio.sleep(delay)` has elapsed. -/
def reset_editing_indicator (env : Env) (uid : String) (fuel : Nat) (ps : PresenceService) (ws : WSManager) : PresenceService × Res :=
  match alookup ps.user_presence uid with
  | none => (ps, Res.ok ws [])
  | some pr =>
    let pr1 := { pr with is_editing := false }
    let ps1 := { ps with user_presence := ainsert ps.user_presence uid pr1 }
    (ps1, broadcast_to_workspace env pr1.workspace_id (editingStoppedMsg uid pr1.workspace_id) none fuel ws)

/-- The active-typer set of a workspace room: users whose presence is in
that workspace with the typing flag set. -/
def activeTypers (ps : PresenceService) (wsid : String) : List String :=
  (ps.user_presence.filter (fun e => e.2.workspace_id == wsid && e.2.is_typing)).map Prod.fst

/-! Proof-layer definitions. -/

/-- All (user, connection) slots of the workspace dicts, in scan order;
`scanConnection` is exactly association lookup in this list. -/
def flatWC : List (String × List (String × Nat)) → List (String × Nat)
  | [] => []
  | e :: rest => e.2 ++ flatWC rest

/-- The users a `sendEach` loop over `users` actually delivers to: those
not excluded and holding a delivery connection in `sys`. -/
def deliveredTo (sys : List (String × Nat)) (excl : Option String) (users : List String) : List String :=
  users.filter (fun u => decide (¬ excl = some u) && (alookup sys u).isSome)

/-- The items a broadcast loop does not skip. -/
def keptBy (excl : Option String) (items : List (String × Nat)) : List (String × Nat) :=
  items.filter (fun e => decide (¬ excl = some e.1))

/-- The connection-storage part of `connect` (everything between creating
the connection object and the auto-subscribe `join_room` call). -/
def connect_store (now : Nat) (uid wsid : String) (s : WSManager) : WSManager :=
  let cid := s.next_conn
  let conn : WSConnection :=
    { user_id := uid, workspace_id := wsid, connected_at := now, subscriptions := [] }
  let s1 := { s with conn_heap := ainsert s.conn_heap cid conn, next_conn := cid + 1 }
  let s2 :=
    if (alookup s1.workspace_connections wsid).isSome then s1
    else { s1 with workspace_connections := ainsert s1.workspace_connections wsid [] }
  let inner := (alookup s2.workspace_connections wsid).getD []
  let s3 := { s2 with
    workspace_connections := ainsert s2.workspace_connections wsid (ainsert inner uid cid)
    system_connections := ainsert s2.system_connections uid cid }
  let s4 := { s3 with total_connections := s3.total_connections + 1 }
  let cnt := ((alookup s4.connections_per_workspace wsid).getD 0) + 1
  { s4 with connections_per_workspace := ainsert s4.connections_per_workspace wsid cnt }

/-- The registry-state part of `connect` (everything before the
`user_joined` broadcast, which under a succeeding transport only adds to
`messages_sent`). -/
def connect_registry (now : Nat) (uid wsid : String) (s : WSManager) : WSManager :=
  join_room uid wsid "workspace" (connect_store now uid wsid s)

/-- The `for room_id in connection.subscriptions.copy()` teardown loop of
`disconnect`. -/
def teardownFold (uid : String) (rooms : List String) (s : WSManager) : WSManager :=
  rooms.foldl (fun st r => leave_room uid r st) s

/-- The registry-state part of `disconnect` (everything before the
`user_left` broadcast). -/
def disconnect_registry (uid wsid : String) (s : WSManager) : WSManager :=
  match alookup s.workspace_connections wsid with
  | none => s
  | some inner =>
    match alookup inner uid with
    | none => s
    | some cid =>
      let s1 := teardownFold uid (getConn s cid).subscriptions s
      let inner1 := aerase ((alookup s1.workspace_connections wsid).getD []) uid
      let s2 := { s1 with workspace_connections := ainsert s1.workspace_connections wsid inner1 }
      let s3 :=
        if (alookup s2.system_connections uid).isSome then
          { s2 with system_connections := aerase s2.system_connections uid }
        else s2
      let s4 := { s3 with total_connections := s3.total_connections - 1 }
      if (alookup s4.connections_per_workspace wsid).isSome then
        let cnt := ((alookup s4.connections_per_workspace wsid).getD 0) - 1
        { s4 with connections_per_workspace := ainsert s4.connections_per_workspace wsid cnt }
      else s4

/-- The registry invariant maintained by plain traces: each user holds at
most one connection slot (`flatKeys`), distinct slots hold distinct
connection objects (`flatCids`), slot connections are allocated
(`cidFresh`), and Room Index membership implies a live connection whose
subscription set contains the room (`idxSub`). -/
structure Inv (s : WSManager) : Prop where
  flatKeys : (akeys (flatWC s.workspace_connections)).Nodup
  flatCids : ((flatWC s.workspace_connections).map Prod.snd).Nodup
  cidFresh : ∀ e ∈ flatWC s.workspace_connections, e.2 < s.next_conn
  idxSub : ∀ r p, p ∈ roomMembers s r →
    ∃ c, alookup (flatWC s.workspace_connections) p = some c ∧
      r ∈ (getConn s c).subscriptions

/-! Concrete environments and registries used by counterexamples and
witnesses. -/

/-- An environment where every send to `bad` fails and every other
transport operation succeeds. -/

def envFailing (bad : String) : Env :=
  { sendOk := fun u => !(u == bad), closeOk := fun _ => true }

/-- A registry with users a and m connected to workspace w and both in
project room pr. -/
def exAssign : WSManager :=
  run [Op.connectOp 0 "a" "w", Op.connectOp 1 "m" "w",
       Op.joinOp "a" "pr" "project", Op.joinOp "m" "pr" "project"]

/-- A registry where user m is in both project room pr and task room tk. -/
def exUpd : WSManager :=
  run [Op.connectOp 0 "m" "w", Op.connectOp 1 "u" "w",
       Op.joinOp "m" "pr" "project", Op.joinOp "m" "tk" "task"]

/-! Association-list and set toolkit. -/

section Toolkit

variable {α β : Type} [DecidableEq α]

@[simp] theorem alookup_nil (k : α) : alookup ([] : List (α × β)) k = none := rfl

theorem alookup_cons (a : α) (b : β) (m : List (α × β)) (k : α) :
    alookup ((a, b) :: m) k = if k = a then some b else alookup m k := rfl

@[simp] theorem alookup_cons_self (k : α) (b : β) (m : List (α × β)) :
    alookup ((k, b) :: m) k = some b := by simp [alookup]

theorem alookup_cons_ne {k a : α} (b : β) (m : List (α × β)) (h : k ≠ a) :
    alookup ((a, b) :: m) k = alookup m k := by simp [alookup, h]

theorem alookup_append_of_some {m1 : List (α × β)} {k : α} {v : β}
    (h : alookup m1 k = some v) (m2 : List (α × β)) :
    alookup (m1 ++ m2) k = some v := by
  induction m1 with
  | nil => simp at h
  | cons e rest ih =>
    obtain ⟨a, b⟩ := e
    by_cases hk : k = a
    · subst hk; simp_all [alookup]
    · simp_all [alookup_cons, hk]

theorem alookup_append_of_none {m1 : List (α × β)} {k : α}
    (h : alookup m1 k = none) (m2 : List (α × β)) :
    alookup (m1 ++ m2) k = alookup m2 k := by
  induction m1 with
  | nil => simp
  | cons e rest ih =>
    obtain ⟨a, b⟩ := e
    by_cases hk : k = a
    · subst hk; simp_all [alookup]
    · simp_all [alookup_cons, hk]

theorem alookup_ainsert (m : List (α × β)) (k : α) (v : β) (k' : α) :
    alookup (ainsert m k v) k' = if k' = k then some v else alookup m k' := by
  induction m with
  | nil => simp [ainsert, alookup_cons]
  | cons e rest ih =>
    obtain ⟨a, b⟩ := e
    by_cases hk : k = a
    · subst hk
      by_cases hk' : k' = k <;> simp [ainsert, alookup_cons, hk']
    · by_cases hk' : k' = a
      · subst hk'
        simp [ainsert, hk, alookup_cons, Ne.symm hk]
      · simp [ainsert, hk, alookup_cons, hk', ih]

omit [DecidableEq α] in
@[simp] theorem akeys_nil : akeys ([] : List (α × β)) = [] := rfl

omit [DecidableEq α] in
@[simp] theorem akeys_cons (e : α × β) (m : List (α × β)) :
    akeys (e :: m) = e.1 :: akeys m := rfl

omit [DecidableEq α] in
@[simp] theorem akeys_append (m1 m2 : List (α × β)) :
    akeys (m1 ++ m2) = akeys m1 ++ akeys m2 := by simp [akeys]

theorem alookup_eq_none_iff {m : List (α × β)} {k : α} :
    alookup m k = none ↔ k ∉ akeys m := by
  induction m with
  | nil => simp
  | cons e rest ih =>
    obtain ⟨a, b⟩ := e
    by_cases hk : k = a <;> simp [alookup_cons, hk, ih]

theorem alookup_isSome_iff {m : List (α × β)} {k : α} :
    (alookup m k).isSome = true ↔ k ∈ akeys m := by
  rw [Option.isSome_iff_ne_none]
  simp [Ne, alookup_eq_none_iff]

theorem mem_of_alookup_eq_some {m : List (α × β)} {k : α} {v : β}
    (h : alookup m k = some v) : (k, v) ∈ m := by
  induction m with
  | nil => simp at h
  | cons e rest ih =>
    obtain ⟨a, b⟩ := e
    by_cases hk : k = a
    · subst hk
      simp [alookup] at h
      simp [h]
    · rw [alookup_cons_ne _ _ hk] at h
      exact List.mem_cons_of_mem _ (ih h)

theorem ainsert_of_not_mem {m : List (α × β)} {k : α} (v : β) (h : k ∉ akeys m) :
    ainsert m k v = m ++ [(k, v)] := by
  induction m with
  | nil => rfl
  | cons e rest ih =>
    obtain ⟨a, b⟩ := e
    simp only [akeys_cons, List.mem_cons] at h
    push_neg at h
    simp [ainsert, h.1, ih h.2]

@[simp] theorem aerase_nil (k : α) : aerase ([] : List (α × β)) k = [] := rfl

theorem aerase_sublist (m : List (α × β)) (k : α) : (aerase m k).Sublist m := by
  induction m with
  | nil => simp
  | cons e rest ih =>
    obtain ⟨a, b⟩ := e
    by_cases hk : k = a
    · simp only [aerase, if_pos hk]
      exact ih.cons _
    · simp only [aerase, if_neg hk]
      exact ih.cons₂ _

theorem alookup_aerase_self (m : List (α × β)) (k : α) :
    alookup (aerase m k) k = none := by
  induction m with
  | nil => rfl
  | cons e rest ih =>
    obtain ⟨a, b⟩ := e
    by_cases hk : k = a
    · subst hk; simp [aerase, ih]
    · simp [aerase, hk, alookup_cons, ih]

theorem alookup_aerase_ne {k k' : α} (m : List (α × β)) (h : k' ≠ k) :
    alookup (aerase m k) k' = alookup m k' := by
  induction m with
  | nil => rfl
  | cons e rest ih =>
    obtain ⟨a, b⟩ := e
    by_cases hk : k = a
    · subst hk
      simp [aerase, alookup_cons, h, ih]
    · by_cases hk' : k' = a <;> simp [aerase, hk, alookup_cons, hk', ih]

theorem length_aerase_lt {m : List (α × β)} {k : α} (h : k ∈ akeys m) :
    (aerase m k).length < m.length := by
  induction m with
  | nil => simp at h
  | cons e rest ih =>
    obtain ⟨a, b⟩ := e
    by_cases hk : k = a
    · simp only [aerase, if_pos hk]
      exact Nat.lt_succ_of_le (aerase_sublist rest k).length_le
    · simp only [akeys_cons, List.mem_cons] at h
      rcases h with h | h
    -- the head key differs from k in this branch
      · exact absurd h hk
      · simp only [aerase, if_neg hk, List.length_cons]
        exact Nat.succ_lt_succ (ih h)

theorem mem_sinsert {s : List String} {x y : String} :
    y ∈ sinsert s x ↔ y = x ∨ y ∈ s := by
  by_cases h : x ∈ s
  · simp only [sinsert, if_pos h]
    constructor
    · exact fun hy => Or.inr hy
    · rintro (rfl | hy)
      · exact h
      · exact hy
  · simp [sinsert, if_neg h, List.mem_append, or_comm]

theorem mem_sdiscard {s : List String} {x y : String} :
    y ∈ sdiscard s x ↔ y ∈ s ∧ y ≠ x := by
  simp [sdiscard, List.mem_filter]

@[simp] theorem flatWC_nil : flatWC [] = [] := rfl

@[simp] theorem flatWC_cons (e : String × List (String × Nat)) (l : List (String × List (String × Nat))) :
    flatWC (e :: l) = e.2 ++ flatWC l := rfl

theorem scan_eq_flat (l : List (String × List (String × Nat))) (p : String) :
    scanConnection l p = alookup (flatWC l) p := by
  induction l with
  | nil => rfl
  | cons e rest ih =>
    obtain ⟨w, inner⟩ := e
    simp only [scanConnection, flatWC_cons]
    cases h : alookup inner p with
    | some c => rw [alookup_append_of_some h]
    | none => rw [alookup_append_of_none h, ih]

theorem flat_ainsert_found {l : List (String × List (String × Nat))} {w : String}
    {i : List (String × Nat)} (h : alookup l w = some i) (i' : List (String × Nat)) :
    ∃ pre suf, flatWC l = pre ++ (i ++ suf) ∧ flatWC (ainsert l w i') = pre ++ (i' ++ suf) := by
  induction l with
  | nil => simp at h
  | cons e rest ih =>
    obtain ⟨w0, i0⟩ := e
    by_cases hw : w = w0
    · subst hw
      simp only [alookup_cons_self, Option.some.injEq] at h
      subst h
      exact ⟨[], flatWC rest, by simp, by simp [ainsert]⟩
    · rw [alookup_cons_ne _ _ hw] at h
      obtain ⟨pre, suf, h1, h2⟩ := ih h
      refine ⟨i0 ++ pre, suf, ?_, ?_⟩
      · simp [h1]
      · simp [ainsert, hw, h2]

theorem flat_ainsert_new {l : List (String × List (String × Nat))} {w : String}
    (h : alookup l w = none) (i' : List (String × Nat)) :
    flatWC (ainsert l w i') = flatWC l ++ i' := by
  induction l with
  | nil => simp [ainsert]
  | cons e rest ih =>
    obtain ⟨w0, i0⟩ := e
    by_cases hw : w = w0
    · subst hw; simp at h
    · rw [alookup_cons_ne _ _ hw] at h
      simp [ainsert, hw, ih h]

end Toolkit

/-! Field-preservation facts. -/

theorem join_room_wc (u r t : String) (s : WSManager) :
    (join_room u r t s).workspace_connections = s.workspace_connections := by
  cases h : scanConnection s.workspace_connections u <;>
    simp only [join_room, h] <;> split_ifs <;> rfl

theorem join_room_sys (u r t : String) (s : WSManager) :
    (join_room u r t s).system_connections = s.system_connections := by
  cases h : scanConnection s.workspace_connections u <;>
    simp only [join_room, h] <;> split_ifs <;> rfl

theorem join_room_next (u r t : String) (s : WSManager) :
    (join_room u r t s).next_conn = s.next_conn := by
  cases h : scanConnection s.workspace_connections u <;>
    simp only [join_room, h] <;> split_ifs <;> rfl

theorem join_room_total (u r t : String) (s : WSManager) :
    (join_room u r t s).total_connections = s.total_connections := by
  cases h : scanConnection s.workspace_connections u <;>
    simp only [join_room, h] <;> split_ifs <;> rfl

theorem join_room_cpw (u r t : String) (s : WSManager) :
    (join_room u r t s).connections_per_workspace = s.connections_per_workspace := by
  cases h : scanConnection s.workspace_connections u <;>
    simp only [join_room, h] <;> split_ifs <;> rfl

theorem leave_room_wc (u r : String) (s : WSManager) :
    (leave_room u r s).workspace_connections = s.workspace_connections := by
  cases h : scanConnection s.workspace_connections u <;>
    simp only [leave_room, h] <;> split_ifs <;> rfl

theorem leave_room_sys (u r : String) (s : WSManager) :
    (leave_room u r s).system_connections = s.system_connections := by
  cases h : scanConnection s.workspace_connections u <;>
    simp only [leave_room, h] <;> split_ifs <;> rfl

theorem leave_room_next (u r : String) (s : WSManager) :
    (leave_room u r s).next_conn = s.next_conn := by
  cases h : scanConnection s.workspace_connections u <;>
    simp only [leave_room, h] <;> split_ifs <;> rfl

theorem leave_room_total (u r : String) (s : WSManager) :
    (leave_room u r s).total_connections = s.total_connections := by
  cases h : scanConnection s.workspace_connections u <;>
    simp only [leave_room, h] <;> split_ifs <;> rfl

theorem leave_room_cpw (u r : String) (s : WSManager) :
    (leave_room u r s).connections_per_workspace = s.connections_per_workspace := by
  cases h : scanConnection s.workspace_connections u <;>
    simp only [leave_room, h] <;> split_ifs <;> rfl

theorem foldl_leave_wc (u : String) (rooms : List String) (s : WSManager) :
    (rooms.foldl (fun st r => leave_room u r st) s).workspace_connections
      = s.workspace_connections := by
  induction rooms generalizing s with
  | nil => rfl
  | cons r rest ih => simp [List.foldl_cons, ih, leave_room_wc]

theorem foldl_leave_sys (u : String) (rooms : List String) (s : WSManager) :
    (rooms.foldl (fun st r => leave_room u r st) s).system_connections
      = s.system_connections := by
  induction rooms generalizing s with
  | nil => rfl
  | cons r rest ih => simp [List.foldl_cons, ih, leave_room_sys]

theorem foldl_leave_next (u : String) (rooms : List String) (s : WSManager) :
    (rooms.foldl (fun st r => leave_room u r st) s).next_conn = s.next_conn := by
  induction rooms generalizing s with
  | nil => rfl
  | cons r rest ih => simp [List.foldl_cons, ih, leave_room_next]

/-- The registry invariant never mentions `messages_sent`. -/
theorem Inv_msgs {s : WSManager} {n : Nat} : Inv { s with messages_sent := n } ↔ Inv s :=
  ⟨fun h => ⟨h.flatKeys, h.flatCids, h.cidFresh, h.idxSub⟩,
   fun h => ⟨h.flatKeys, h.flatCids, h.cidFresh, h.idxSub⟩⟩

theorem mem_akeys_of_alookup {α β : Type} [DecidableEq α] {m : List (α × β)} {k : α} {v : β}
    (h : alookup m k = some v) : k ∈ akeys m := by
  have := mem_of_alookup_eq_some h
  exact List.mem_map_of_mem Prod.fst this

/-! Behaviour of the dispatch layer when every send succeeds. -/

theorem bcastItems_ok (env : Env) (henv : ∀ u, env.sendOk u = true)
    (wsid : String) (msg : WSMsg) (excl : Option String) :
    ∀ (items : List (String × Nat)) (fuel origSize : Nat) (s : WSManager),
      items.length < fuel →
      ((alookup s.workspace_connections wsid).getD []).length = origSize →
      bcastWsItems env wsid msg excl fuel items origSize s =
        { st := { s with messages_sent := s.messages_sent + (keptBy excl items).length }
          log := (keptBy excl items).map (fun e => Effect.sent e.1 msg)
          exc := none } := by
  intro items
  induction items with
  | nil =>
    intro fuel origSize s hf hs
    obtain ⟨f, rfl⟩ : ∃ f, fuel = f + 1 := ⟨fuel - 1, by omega⟩
    simp [bcastWsItems, hs, keptBy]
    rfl
  | cons e rest ih =>
    intro fuel origSize s hf hs
    obtain ⟨f, rfl⟩ : ∃ f, fuel = f + 1 := ⟨fuel - 1, by omega⟩
    obtain ⟨uid, cid⟩ := e
    have hrest : rest.length < f := by simp at hf; omega
    by_cases hx : excl = some uid
    · have hkept : keptBy excl ((uid, cid) :: rest) = keptBy excl rest := by
        simp [keptBy, hx]
      have step : bcastWsItems env wsid msg excl (f + 1) ((uid, cid) :: rest) origSize s
          = bcastWsItems env wsid msg excl f rest origSize s := by
        simp only [bcastWsItems]
        rw [if_neg (by simp [hs]), if_pos hx]
      rw [step, ih f origSize s hrest hs, hkept]
    · have hkept : keptBy excl ((uid, cid) :: rest) = (uid, cid) :: keptBy excl rest := by
        simp [keptBy, hx]
      have step : bcastWsItems env wsid msg excl (f + 1) ((uid, cid) :: rest) origSize s
          = Res.withLog [Effect.sent uid msg]
            (bcastWsItems env wsid msg excl f rest origSize
              { s with messages_sent := s.messages_sent + 1 }) := by
        simp only [bcastWsItems]
        rw [if_neg (by simp [hs]), if_neg hx, if_pos (henv uid)]
      rw [step, ih f origSize { s with messages_sent := s.messages_sent + 1 } hrest hs, hkept]
      simp only [Res.withLog, List.length_cons, List.map_cons]
      simp
      omega

theorem broadcast_ws_ok (env : Env) (henv : ∀ u, env.sendOk u = true)
    (wsid : String) (msg : WSMsg) (excl : Option String) (fuel : Nat) (s : WSManager)
    (hfuel : ((alookup s.workspace_connections wsid).getD []).length + 2 ≤ fuel) :
    broadcast_to_workspace env wsid msg excl fuel s =
      { st := { s with messages_sent := s.messages_sent +
                  (keptBy excl ((alookup s.workspace_connections wsid).getD [])).length }
        log := (keptBy excl ((alookup s.workspace_connections wsid).getD [])).map
                  (fun e => Effect.sent e.1 msg)
        exc := none } := by
  obtain ⟨f, rfl⟩ : ∃ f, fuel = f + 1 := ⟨fuel - 1, by omega⟩
  cases hlw : alookup s.workspace_connections wsid with
  | none =>
    simp only [broadcast_to_workspace, hlw]
    simp [keptBy, Res.ok]
  | some inner =>
    simp only [broadcast_to_workspace, hlw]
    rw [bcastItems_ok env henv wsid msg excl inner f inner.length s
      (by rw [hlw] at hfuel; simp at hfuel; omega) (by rw [hlw]; rfl)]
    simp [hlw]

theorem spm_ok_present (env : Env) (henv : ∀ u, env.sendOk u = true)
    (uid : String) (msg : WSMsg) (fuel : Nat) (s : WSManager) (hf : 1 ≤ fuel)
    {c : Nat} (h : alookup s.system_connections uid = some c) :
    send_personal_message env uid msg fuel s =
      Res.ok { s with messages_sent := s.messages_sent + 1 } [Effect.sent uid msg] := by
  obtain ⟨f, rfl⟩ : ∃ f, fuel = f + 1 := ⟨fuel - 1, by omega⟩
  simp [send_personal_message, h, henv uid]

theorem spm_ok_absent (env : Env) (uid : String) (msg : WSMsg) (fuel : Nat)
    (s : WSManager) (hf : 1 ≤ fuel) (h : alookup s.system_connections uid = none) :
    send_personal_message env uid msg fuel s = Res.ok s [] := by
  obtain ⟨f, rfl⟩ : ∃ f, fuel = f + 1 := ⟨fuel - 1, by omega⟩
  simp [send_personal_message, h]

theorem sendEach_ok (env : Env) (henv : ∀ u, env.sendOk u = true)
    (msg : WSMsg) (excl : Option String) (fuel : Nat) (hf : 1 ≤ fuel) :
    ∀ (users : List String) (s : WSManager),
      sendEach env msg excl fuel users s =
        { st := { s with messages_sent := s.messages_sent +
                    (deliveredTo s.system_connections excl users).length }
          log := (deliveredTo s.system_connections excl users).map
                    (fun u => Effect.sent u msg)
          exc := none } := by
  intro users
  induction users with
  | nil =>
    intro s
    simp [sendEach, deliveredTo]
    rfl
  | cons uid rest ih =>
    intro s
    by_cases hx : excl = some uid
    · have hdel : deliveredTo s.system_connections excl (uid :: rest)
          = deliveredTo s.system_connections excl rest := by
        simp [deliveredTo, hx]
      simp only [sendEach, if_pos hx, hdel]
      exact ih s
    · cases hsys : alookup s.system_connections uid with
      | none =>
        have hdel : deliveredTo s.system_connections excl (uid :: rest)
            = deliveredTo s.system_connections excl rest := by
          simp [deliveredTo, hx, hsys]
        simp only [sendEach, if_neg hx]
        rw [spm_ok_absent env uid msg fuel s hf hsys]
        simp only [Res.andThen, Res.ok]
        rw [ih s, hdel]
        simp
      | some c =>
        have hdel : deliveredTo s.system_connections excl (uid :: rest)
            = uid :: deliveredTo s.system_connections excl rest := by
          simp [deliveredTo, hx, hsys]
        simp only [sendEach, if_neg hx]
        rw [spm_ok_present env henv uid msg fuel s hf hsys]
        simp only [Res.andThen, Res.ok]
        rw [ih { s with messages_sent := s.messages_sent + 1 }, hdel]
        simp only [List.length_cons, List.map_cons]
        simp
        omega

theorem bproj_ok (env : Env) (henv : ∀ u, env.sendOk u = true)
    (pid : String) (msg : WSMsg) (excl : Option String) (fuel : Nat) (s : WSManager)
    (hf : 1 ≤ fuel) :
    broadcast_to_project env pid msg excl fuel s =
      { st := { s with messages_sent := s.messages_sent +
                  (deliveredTo s.system_connections excl
                    ((alookup s.project_rooms pid).getD [])).length }
        log := (deliveredTo s.system_connections excl
                  ((alookup s.project_rooms pid).getD [])).map
                  (fun u => Effect.sent u msg)
        exc := none } := by
  cases hlp : alookup s.project_rooms pid with
  | none =>
    simp only [broadcast_to_project, hlp]
    simp [deliveredTo, Res.ok]
  | some members =>
    simp only [broadcast_to_project, hlp]
    rw [sendEach_ok env henv msg excl fuel hf members s]
    simp

theorem btask_ok (env : Env) (henv : ∀ u, env.sendOk u = true)
    (tid : String) (msg : WSMsg) (excl : Option String) (fuel : Nat) (s : WSManager)
    (hf : 1 ≤ fuel) :
    broadcast_to_task env tid msg excl fuel s =
      { st := { s with messages_sent := s.messages_sent +
                  (deliveredTo s.system_connections excl
                    ((alookup s.task_rooms tid).getD [])).length }
        log := (deliveredTo s.system_connections excl
                  ((alookup s.task_rooms tid).getD [])).map
                  (fun u => Effect.sent u msg)
        exc := none } := by
  cases hlt : alookup s.task_rooms tid with
  | none =>
    simp only [broadcast_to_task, hlt]
    simp [deliveredTo, Res.ok]
  | some members =>
    simp only [broadcast_to_task, hlt]
    rw [sendEach_ok env henv msg excl fuel hf members s]
    simp

theorem ainsert_ainsert {α β : Type} [DecidableEq α] (m : List (α × β)) (k : α) (v v' : β) :
    ainsert (ainsert m k v) k v' = ainsert m k v' := by
  induction m with
  | nil => simp [ainsert]
  | cons e rest ih =>
    obtain ⟨a, b⟩ := e
    by_cases hk : k = a
    · simp [ainsert, hk]
    · simp [ainsert, hk, ih]

theorem length_ainsert_le {α β : Type} [DecidableEq α] (m : List (α × β)) (k : α) (v : β) :
    (ainsert m k v).length ≤ m.length + 1 := by
  induction m with
  | nil => simp [ainsert]
  | cons e rest ih =>
    obtain ⟨a, b⟩ := e
    by_cases hk : k = a
    · simp [ainsert, hk]
    · simp only [ainsert, if_neg hk, List.length_cons]
      omega

theorem keptBy_none (items : List (String × Nat)) : keptBy none items = items := by
  simp [keptBy]

/-! Characterization of `disconnect` and `connect`. -/

theorem disconnect_absent (env : Env) (u w : String) (fuel : Nat) (s : WSManager)
    (hf : 1 ≤ fuel)
    (h : alookup ((alookup s.workspace_connections w).getD []) u = none) :
    disconnect env u w fuel s = Res.ok s [] := by
  obtain ⟨f, rfl⟩ : ∃ f, fuel = f + 1 := ⟨fuel - 1, by omega⟩
  cases hlw : alookup s.workspace_connections w with
  | none => simp [disconnect, hlw]
  | some inner =>
    rw [hlw] at h
    simp only [Option.getD_some] at h
    simp [disconnect, hlw, h]

theorem disconnect_registry_absent (u w : String) (s : WSManager)
    (h : alookup ((alookup s.workspace_connections w).getD []) u = none) :
    disconnect_registry u w s = s := by
  cases hlw : alookup s.workspace_connections w with
  | none => simp [disconnect_registry, hlw]
  | some inner =>
    rw [hlw] at h
    simp only [Option.getD_some] at h
    simp [disconnect_registry, hlw, h]

theorem disconnect_eq_bcast (env : Env) (u w : String) (f : Nat) (s : WSManager)
    {inner : List (String × Nat)} {cid : Nat}
    (hlw : alookup s.workspace_connections w = some inner)
    (hlu : alookup inner u = some cid) :
    disconnect env u w (f + 1) s =
      broadcast_to_workspace env w (userLeftMsg u w) none f (disconnect_registry u w s) := by
  simp only [disconnect, disconnect_registry, teardownFold, hlw, hlu]

theorem disconnect_registry_wc (u w : String) (s : WSManager)
    {inner : List (String × Nat)} {cid : Nat}
    (hlw : alookup s.workspace_connections w = some inner)
    (hlu : alookup inner u = some cid) :
    (disconnect_registry u w s).workspace_connections
      = ainsert s.workspace_connections w (aerase inner u) := by
  simp only [disconnect_registry, teardownFold, hlw, hlu]
  split_ifs <;> simp [foldl_leave_wc, hlw]

theorem disconnect_ok (env : Env) (henv : ∀ u, env.sendOk u = true)
    (u w : String) (fuel : Nat) (s : WSManager)
    (hfuel : ((alookup s.workspace_connections w).getD []).length + 2 ≤ fuel) :
    (disconnect env u w fuel s).exc = none ∧
    ∃ n, (disconnect env u w fuel s).st
        = { disconnect_registry u w s with messages_sent := n } := by
  obtain ⟨f, rfl⟩ : ∃ f, fuel = f + 1 := ⟨fuel - 1, by omega⟩
  by_cases hp : alookup ((alookup s.workspace_connections w).getD []) u = none
  · rw [disconnect_absent env u w (f + 1) s (by omega) hp,
      disconnect_registry_absent u w s hp]
    exact ⟨rfl, s.messages_sent, rfl⟩
  · cases hlw : alookup s.workspace_connections w with
    | none => rw [hlw] at hp; simp at hp
    | some inner =>
      rw [hlw] at hp
      simp only [Option.getD_some] at hp
      cases hlu : alookup inner u with
      | none => exact absurd hlu hp
      | some cid =>
        rw [disconnect_eq_bcast env u w f s hlw hlu]
        have hwc := disconnect_registry_wc u w s hlw hlu
        have hlen : ((alookup (disconnect_registry u w s).workspace_connections w).getD []).length + 2 ≤ f := by
          rw [hwc, alookup_ainsert]
          have h1 : (aerase inner u).length < inner.length :=
            length_aerase_lt (mem_akeys_of_alookup hlu)
          rw [hlw] at hfuel
          simp only [Option.getD_some] at hfuel
          simp
          omega
        rw [broadcast_ws_ok env henv w (userLeftMsg u w) none f _ hlen]
        exact ⟨rfl, _, rfl⟩

theorem connect_eq_bcast (env : Env) (now : Nat) (u w : String) (fuel : Nat) (s : WSManager) :
    connect env now u w fuel s =
      Res.withLog
        (match alookup ((alookup s.workspace_connections w).getD []) u with
         | some _ => [Effect.socketCloseAttempt u w (env.closeOk u)]
         | none => [])
        (broadcast_to_workspace env w (userJoinedMsg u w) none fuel
          (connect_registry now u w s)) := by
  cases hlw : alookup s.workspace_connections w with
  | none =>
    simp only [connect, connect_registry, connect_store, hlw, Option.isSome_none,
      Bool.false_eq_true, if_false, Option.getD_none, alookup_ainsert, if_pos rfl,
      Option.getD_some, alookup_nil]
    simp
  | some inner =>
    simp only [connect, connect_registry, connect_store, hlw, Option.isSome_some,
      if_true, Option.getD_some]

theorem connect_registry_wc (now : Nat) (u w : String) (s : WSManager) :
    (connect_registry now u w s).workspace_connections
      = ainsert s.workspace_connections w
          (ainsert ((alookup s.workspace_connections w).getD []) u s.next_conn) := by
  cases hlw : alookup s.workspace_connections w with
  | none =>
    simp only [connect_registry, connect_store, hlw, Option.isSome_none,
      Bool.false_eq_true, if_false, Option.getD_none, alookup_ainsert, if_pos rfl,
      Option.getD_some]
    rw [join_room_wc]
    simp [ainsert_ainsert]
  | some inner =>
    simp only [connect_registry, connect_store, hlw, Option.isSome_some, if_true,
      Option.getD_some]
    rw [join_room_wc]

theorem connect_ok (env : Env) (henv : ∀ u, env.sendOk u = true)
    (now : Nat) (u w : String) (fuel : Nat) (s : WSManager)
    (hfuel : ((alookup s.workspace_connections w).getD []).length + 3 ≤ fuel) :
    (connect env now u w fuel s).exc = none ∧
    ∃ n, (connect env now u w fuel s).st
        = { connect_registry now u w s with messages_sent := n } := by
  rw [connect_eq_bcast env now u w fuel s]
  have hlen : ((alookup (connect_registry now u w s).workspace_connections w).getD []).length + 2 ≤ fuel := by
    rw [connect_registry_wc, alookup_ainsert]
    have := length_ainsert_le ((alookup s.workspace_connections w).getD []) u s.next_conn
    simp
    omega
  rw [broadcast_ws_ok env henv w (userJoinedMsg u w) none fuel _ hlen]
  cases alookup ((alookup s.workspace_connections w).getD []) u <;>
    exact ⟨rfl, _, rfl⟩

/-! Structural helpers for the registry invariant. -/

theorem scan_none_inner {l : List (String × List (String × Nat))} {p : String}
    (h : alookup (flatWC l) p = none) {w : String} {i : List (String × Nat)}
    (hw : alookup l w = some i) : alookup i p = none := by
  induction l with
  | nil => simp at hw
  | cons e rest ih =>
    obtain ⟨w0, i0⟩ := e
    simp only [flatWC_cons] at h
    have h0 : alookup i0 p = none := by
      cases hx : alookup i0 p with
      | none => rfl
      | some c => rw [alookup_append_of_some hx] at h; exact absurd h (by simp)
    by_cases hww : w = w0
    · subst hww
      rw [alookup_cons_self] at hw
      injection hw with h2
      subst h2
      exact h0
    · rw [alookup_cons_ne _ _ hww] at hw
      rw [alookup_append_of_none h0] at h
      exact ih h hw

theorem alookup_eq_of_mem_of_nodup {α β : Type} [DecidableEq α] {m : List (α × β)}
    (hn : (akeys m).Nodup) {k : α} {v : β} (h : (k, v) ∈ m) : alookup m k = some v := by
  induction m with
  | nil => simp at h
  | cons e rest ih =>
    obtain ⟨a, b⟩ := e
    simp only [akeys_cons, List.nodup_cons] at hn
    rcases List.mem_cons.mp h with heq | hmem
    · injection heq with h1 h2
      subst h1
      subst h2
      exact alookup_cons_self k v rest
    · have hk : k ≠ a := by
        rintro rfl
        exact hn.1 (show k ∈ akeys rest from List.mem_map.mpr ⟨(k, v), hmem, rfl⟩)
      rw [alookup_cons_ne _ _ hk]
      exact ih hn.2 hmem

theorem mem_flat_of_inner {l : List (String × List (String × Nat))} {w : String}
    {i : List (String × Nat)} (hw : alookup l w = some i) {e : String × Nat}
    (he : e ∈ i) : e ∈ flatWC l := by
  obtain ⟨pre, suf, h1, _⟩ := flat_ainsert_found hw i
  rw [h1]
  simp [he]

theorem flat_cid_inj {s : WSManager} (hs : Inv s) {p q : String} {c : Nat}
    (hp : alookup (flatWC s.workspace_connections) p = some c)
    (hq : alookup (flatWC s.workspace_connections) q = some c) : p = q := by
  have hp' := mem_of_alookup_eq_some hp
  have hq' := mem_of_alookup_eq_some hq
  have h := List.inj_on_of_nodup_map hs.flatCids hp' hq' rfl
  exact congrArg Prod.fst h

theorem inner_le_stored (s : WSManager) (w : String) :
    ((alookup s.workspace_connections w).getD []).length ≤ storedConns s := by
  cases hlw : alookup s.workspace_connections w with
  | none => simp [storedConns]
  | some inner =>
    simp only [Option.getD_some]
    have hm := mem_of_alookup_eq_some hlw
    exact List.single_le_sum (by intro x _; omega) _
      (List.mem_map_of_mem (fun e => e.2.length) hm)

theorem join_room_heap {u : String} (r t : String) {s : WSManager} {c : Nat}
    (hscan : scanConnection s.workspace_connections u = some c) :
    (join_room u r t s).conn_heap
      = ainsert s.conn_heap c
          { getConn s c with subscriptions := sinsert (getConn s c).subscriptions r } := by
  simp only [join_room, hscan]
  split_ifs <;> rfl

theorem join_room_members {u r t : String} {s : WSManager} {r' p : String}
    (h : p ∈ roomMembers (join_room u r t s) r') :
    p ∈ roomMembers s r' ∨ (p = u ∧ r' = r) := by
  cases hscan : scanConnection s.workspace_connections u with
  | none => left; simpa [join_room, hscan] using h
  | some c =>
    simp only [join_room, hscan] at h
    split_ifs at h with h1 h2
    · by_cases hr : r' = r
      · subst hr
        simp only [roomMembers, alookup_ainsert, if_pos rfl, Option.getD_some] at h
        rcases List.mem_append.mp h with h | h
        · rcases mem_sinsert.mp h with h | h
          · exact Or.inr ⟨h, rfl⟩
          · exact Or.inl (List.mem_append.mpr (Or.inl h))
        · exact Or.inl (List.mem_append.mpr (Or.inr h))
      · left
        simpa [roomMembers, alookup_ainsert, hr] using h
    · by_cases hr : r' = r
      · subst hr
        simp only [roomMembers, alookup_ainsert, if_pos rfl, Option.getD_some] at h
        rcases List.mem_append.mp h with h | h
        · exact Or.inl (List.mem_append.mpr (Or.inl h))
        · rcases mem_sinsert.mp h with h | h
          · exact Or.inr ⟨h, rfl⟩
          · exact Or.inl (List.mem_append.mpr (Or.inr h))
      · left
        simpa [roomMembers, alookup_ainsert, hr] using h
    · left
      simpa [roomMembers] using h

theorem leave_room_rooms (u r : String) (s : WSManager) :
    ((leave_room u r s).project_rooms
        = (if (alookup s.project_rooms r).isSome then
            ainsert s.project_rooms r (sdiscard ((alookup s.project_rooms r).getD []) u)
          else s.project_rooms)) ∧
    ((leave_room u r s).task_rooms
        = (if (alookup s.task_rooms r).isSome then
            ainsert s.task_rooms r (sdiscard ((alookup s.task_rooms r).getD []) u)
          else s.task_rooms)) := by
  cases hscan : scanConnection s.workspace_connections u with
  | none =>
    constructor <;> (simp only [leave_room, hscan]; split_ifs <;> rfl)
  | some c =>
    constructor <;> (simp only [leave_room, hscan]; split_ifs <;> rfl)

theorem mem_after_discard {m : List (String × List String)} {r r' u p : String}
    (h : p ∈ (alookup (if (alookup m r).isSome then
        ainsert m r (sdiscard ((alookup m r).getD []) u) else m) r').getD []) :
    p ∈ (alookup m r').getD [] ∧ ¬(p = u ∧ r' = r) := by
  by_cases hr : r' = r
  · subst hr
    cases hm : alookup m r' with
    | none =>
      rw [hm] at h
      simp only [Option.isSome_none, Bool.false_eq_true, if_false] at h
      rw [hm] at h
      simp at h
    | some mem =>
      rw [hm] at h
      simp only [Option.isSome_some, if_true, Option.getD_some, alookup_ainsert,
        if_pos rfl] at h
      obtain ⟨hmem, hne⟩ := mem_sdiscard.mp h
      exact ⟨hmem, fun hc => hne hc.1⟩
  · refine ⟨?_, fun hc => hr hc.2⟩
    cases hm : alookup m r with
    | none => rw [hm] at h; simpa using h
    | some mem =>
      rw [hm] at h
      simp only [Option.isSome_some, if_true, Option.getD_some, alookup_ainsert,
        if_neg hr] at h
      exact h

theorem leave_room_members {u r : String} {s : WSManager} {r' p : String}
    (h : p ∈ roomMembers (leave_room u r s) r') :
    p ∈ roomMembers s r' ∧ ¬(p = u ∧ r' = r) := by
  obtain ⟨hpr, htr⟩ := leave_room_rooms u r s
  simp only [roomMembers, hpr, htr] at h
  rcases List.mem_append.mp h with h | h
  · obtain ⟨hm, hne⟩ := mem_after_discard h
    exact ⟨List.mem_append.mpr (Or.inl hm), hne⟩
  · obtain ⟨hm, hne⟩ := mem_after_discard h
    exact ⟨List.mem_append.mpr (Or.inr hm), hne⟩

theorem leave_room_heap_cases (u r : String) (s : WSManager) :
    (leave_room u r s).conn_heap = s.conn_heap ∨
    (∃ c, scanConnection s.workspace_connections u = some c ∧
      (leave_room u r s).conn_heap
        = ainsert s.conn_heap c
            { getConn s c with subscriptions := sdiscard (getConn s c).subscriptions r }) := by
  cases hscan : scanConnection s.workspace_connections u with
  | none =>
    left
    simp only [leave_room, hscan]
    split_ifs <;> rfl
  | some c =>
    by_cases hsub : r ∈ (getConn s c).subscriptions
    · right
      refine ⟨c, rfl, ?_⟩
      simp only [leave_room, hscan, if_pos hsub]
      split_ifs <;> rfl
    · left
      simp only [leave_room, hscan, if_neg hsub]
      split_ifs <;> rfl

theorem alookup_append_none_iff {α β : Type} [DecidableEq α]
    {m1 m2 : List (α × β)} {k : α} :
    alookup (m1 ++ m2) k = none ↔ alookup m1 k = none ∧ alookup m2 k = none := by
  constructor
  · intro h
    cases hx : alookup m1 k with
    | some v => rw [alookup_append_of_some hx] at h; exact absurd h (by simp)
    | none => rw [alookup_append_of_none hx] at h; exact ⟨rfl, h⟩
  · rintro ⟨h1, h2⟩
    rw [alookup_append_of_none h1]
    exact h2

theorem akeys_eq {α β : Type} (m : List (α × β)) : akeys m = m.map Prod.fst := rfl

theorem roomMembers_congr {s1 s2 : WSManager}
    (hp : s1.project_rooms = s2.project_rooms) (ht : s1.task_rooms = s2.task_rooms)
    (r : String) : roomMembers s1 r = roomMembers s2 r := by
  simp [roomMembers, hp, ht]

theorem join_room_rooms_workspace (u r : String) (s : WSManager) :
    (join_room u r "workspace" s).project_rooms = s.project_rooms ∧
    (join_room u r "workspace" s).task_rooms = s.task_rooms := by
  cases hscan : scanConnection s.workspace_connections u with
  | none => simp [join_room, hscan]
  | some c =>
    constructor <;> simp [join_room, hscan]

/-! Preservation of the registry invariant. -/

theorem Inv_join_room {s : WSManager} (hs : Inv s) (u r t : String) :
    Inv (join_room u r t s) := by
  cases hscan : scanConnection s.workspace_connections u with
  | none =>
    have h : join_room u r t s = s := by simp [join_room, hscan]
    rw [h]
    exact hs
  | some c =>
    have hwc := join_room_wc u r t s
    have hnext := join_room_next u r t s
    have hheap := join_room_heap r t hscan
    refine ⟨by rw [hwc]; exact hs.flatKeys, by rw [hwc]; exact hs.flatCids,
      by rw [hwc, hnext]; exact hs.cidFresh, ?_⟩
    intro r' p hp
    have hufl : alookup (flatWC s.workspace_connections) u = some c := by
      rw [← scan_eq_flat]
      exact hscan
    rcases join_room_members hp with hmem | ⟨hpu, hrr⟩
    · obtain ⟨cp, hcp, hsub⟩ := hs.idxSub r' p hmem
      refine ⟨cp, by rw [hwc]; exact hcp, ?_⟩
      by_cases hcc : cp = c
      · subst hcc
        have hg : getConn (join_room u r t s) cp
            = { getConn s cp with subscriptions := sinsert (getConn s cp).subscriptions r } := by
          simp [getConn, hheap, alookup_ainsert]
        rw [hg]
        exact mem_sinsert.mpr (Or.inr hsub)
      · have hg : getConn (join_room u r t s) cp = getConn s cp := by
          simp [getConn, hheap, alookup_ainsert, hcc]
        rw [hg]
        exact hsub
    · refine ⟨c, ?_, ?_⟩
      · rw [hwc, hpu]
        exact hufl
      · have hg : getConn (join_room u r t s) c
            = { getConn s c with subscriptions := sinsert (getConn s c).subscriptions r } := by
          simp [getConn, hheap, alookup_ainsert]
        rw [hg, hrr]
        exact mem_sinsert.mpr (Or.inl rfl)

theorem Inv_leave_room {s : WSManager} (hs : Inv s) (u r : String) :
    Inv (leave_room u r s) := by
  have hwc := leave_room_wc u r s
  have hnext := leave_room_next u r s
  refine ⟨by rw [hwc]; exact hs.flatKeys, by rw [hwc]; exact hs.flatCids,
    by rw [hwc, hnext]; exact hs.cidFresh, ?_⟩
  intro r' p hp
  obtain ⟨hmem, hne⟩ := leave_room_members hp
  obtain ⟨cp, hcp, hsub⟩ := hs.idxSub r' p hmem
  refine ⟨cp, by rw [hwc]; exact hcp, ?_⟩
  rcases leave_room_heap_cases u r s with hh | ⟨c, hscan, hh⟩
  · have hg : getConn (leave_room u r s) cp = getConn s cp := by simp [getConn, hh]
    rw [hg]
    exact hsub
  · by_cases hcc : cp = c
    · subst hcc
      have hufl : alookup (flatWC s.workspace_connections) u = some cp := by
        rw [← scan_eq_flat]
        exact hscan
      have hpu : p = u := flat_cid_inj hs hcp hufl
      have hrr : r' ≠ r := fun hr => hne ⟨hpu, hr⟩
      have hg : getConn (leave_room u r s) cp
          = { getConn s cp with subscriptions := sdiscard (getConn s cp).subscriptions r } := by
        simp [getConn, hh, alookup_ainsert]
      rw [hg]
      exact mem_sdiscard.mpr ⟨hsub, hrr⟩
    · have hg : getConn (leave_room u r s) cp = getConn s cp := by
        simp [getConn, hh, alookup_ainsert, hcc]
      rw [hg]
      exact hsub

theorem flat_after_connect {s : WSManager} {u : String} (w : String) (cid : Nat)
    (hu : alookup (flatWC s.workspace_connections) u = none) :
    alookup (flatWC (ainsert s.workspace_connections w
        (ainsert ((alookup s.workspace_connections w).getD []) u cid))) u = some cid ∧
    (∀ q, q ≠ u → alookup (flatWC (ainsert s.workspace_connections w
        (ainsert ((alookup s.workspace_connections w).getD []) u cid))) q
      = alookup (flatWC s.workspace_connections) q) ∧
    List.Perm (flatWC (ainsert s.workspace_connections w
        (ainsert ((alookup s.workspace_connections w).getD []) u cid)))
      (flatWC s.workspace_connections ++ [(u, cid)]) := by
  cases hlw : alookup s.workspace_connections w with
  | none =>
    simp only [Option.getD_none]
    have hins : ainsert ([] : List (String × Nat)) u cid = [(u, cid)] := rfl
    rw [hins, flat_ainsert_new hlw [(u, cid)]]
    refine ⟨?_, ?_, List.Perm.refl _⟩
    · rw [alookup_append_of_none hu]
      exact alookup_cons_self u cid []
    · intro q hq
      cases hx : alookup (flatWC s.workspace_connections) q with
      | some v => exact alookup_append_of_some hx _
      | none =>
        rw [alookup_append_of_none hx]
        exact alookup_cons_ne _ _ hq
  | some inner =>
    simp only [Option.getD_some]
    have hnotin : alookup inner u = none := scan_none_inner hu hlw
    have hins : ainsert inner u cid = inner ++ [(u, cid)] :=
      ainsert_of_not_mem cid (alookup_eq_none_iff.mp hnotin)
    obtain ⟨pre, suf, h1, h2⟩ := flat_ainsert_found hlw (inner ++ [(u, cid)])
    rw [h1] at hu
    obtain ⟨hupre, humid⟩ := alookup_append_none_iff.mp hu
    obtain ⟨huinner, husuf⟩ := alookup_append_none_iff.mp humid
    rw [hins, h2]
    refine ⟨?_, ?_, ?_⟩
    · rw [alookup_append_of_none hupre, List.append_assoc,
        alookup_append_of_none huinner]
      exact alookup_cons_self u cid suf
    · intro q hq
      rw [h1]
      cases hx : alookup pre q with
      | some v => rw [alookup_append_of_some hx, alookup_append_of_some hx]
      | none =>
        rw [alookup_append_of_none hx, alookup_append_of_none hx]
        cases hy : alookup inner q with
        | some v =>
          rw [alookup_append_of_some hy]
          rw [List.append_assoc, alookup_append_of_some hy]
        | none =>
          rw [alookup_append_of_none hy, List.append_assoc,
            alookup_append_of_none hy]
          have : alookup ([(u, cid)] ++ suf) q = alookup suf q := by
            rw [show ([(u, cid)] ++ suf) = (u, cid) :: suf from rfl,
              alookup_cons_ne _ _ hq]
          rw [this]
    · rw [h1]
      have e1 : pre ++ ((inner ++ [(u, cid)]) ++ suf) = (pre ++ inner) ++ ((u, cid) :: suf) := by
        simp
      have e2 : pre ++ (inner ++ suf) = (pre ++ inner) ++ suf := by simp
      rw [e1, e2]
      exact List.Perm.trans List.perm_middle (List.perm_append_singleton _ _).symm

theorem connect_store_fields (now : Nat) (u w : String) (s : WSManager) :
    (connect_store now u w s).workspace_connections
        = ainsert s.workspace_connections w
            (ainsert ((alookup s.workspace_connections w).getD []) u s.next_conn) ∧
    (connect_store now u w s).conn_heap
        = ainsert s.conn_heap s.next_conn
            { user_id := u, workspace_id := w, connected_at := now, subscriptions := [] } ∧
    (connect_store now u w s).next_conn = s.next_conn + 1 ∧
    (connect_store now u w s).project_rooms = s.project_rooms ∧
    (connect_store now u w s).task_rooms = s.task_rooms := by
  cases hlw : alookup s.workspace_connections w with
  | none =>
    refine ⟨?_, ?_, ?_, ?_, ?_⟩ <;>
      simp [connect_store, hlw, alookup_ainsert, ainsert_ainsert]
  | some inner =>
    refine ⟨?_, ?_, ?_, ?_, ?_⟩ <;>
      simp [connect_store, hlw, alookup_ainsert, ainsert_ainsert]

theorem Inv_connect_registry {s : WSManager} (hs : Inv s) (now : Nat) (u w : String)
    (hscan : scanConnection s.workspace_connections u = none) :
    Inv (connect_registry now u w s) := by
  have hu : alookup (flatWC s.workspace_connections) u = none := by
    rw [← scan_eq_flat]
    exact hscan
  obtain ⟨hwc, hheap, hnext, hpr, htr⟩ := connect_store_fields now u w s
  obtain ⟨h1, h2, h3⟩ := flat_after_connect w s.next_conn hu
  have hscanst : scanConnection (connect_store now u w s).workspace_connections u
      = some s.next_conn := by
    rw [scan_eq_flat, hwc]
    exact h1
  have hgc : getConn (connect_store now u w s) s.next_conn
      = { user_id := u, workspace_id := w, connected_at := now, subscriptions := [] } := by
    simp [getConn, hheap, alookup_ainsert]
  have hjwc := join_room_wc u w "workspace" (connect_store now u w s)
  have hjnext := join_room_next u w "workspace" (connect_store now u w s)
  have hjheap := join_room_heap w "workspace" hscanst
  obtain ⟨hjpr, hjtr⟩ := join_room_rooms_workspace u w (connect_store now u w s)
  show Inv (join_room u w "workspace" (connect_store now u w s))
  have hkeysperm : List.Perm (akeys (flatWC (join_room u w "workspace"
      (connect_store now u w s)).workspace_connections))
      (akeys (flatWC s.workspace_connections) ++ [u]) := by
    rw [hjwc, hwc]
    simpa [akeys_eq] using h3.map Prod.fst
  have hcidsperm : List.Perm ((flatWC (join_room u w "workspace"
      (connect_store now u w s)).workspace_connections).map Prod.snd)
      ((flatWC s.workspace_connections).map Prod.snd ++ [s.next_conn]) := by
    rw [hjwc, hwc]
    simpa using h3.map Prod.snd
  have hunotin : u ∉ akeys (flatWC s.workspace_connections) :=
    alookup_eq_none_iff.mp hu
  have hcidnotin : s.next_conn ∉ (flatWC s.workspace_connections).map Prod.snd := by
    intro hmem
    obtain ⟨e, he, hee⟩ := List.mem_map.mp hmem
    have := hs.cidFresh e he
    omega
  refine ⟨?_, ?_, ?_, ?_⟩
  · refine hkeysperm.nodup_iff.mpr ?_
    refine hs.flatKeys.append (by simp) ?_
    intro a ha hb
    simp only [List.mem_singleton] at hb
    subst hb
    exact hunotin ha
  · refine hcidsperm.nodup_iff.mpr ?_
    refine hs.flatCids.append (by simp) ?_
    intro a ha hb
    simp only [List.mem_singleton] at hb
    subst hb
    exact hcidnotin ha
  · intro e he
    rw [hjwc, hwc] at he
    rw [hjnext, hnext]
    have hmm := h3.mem_iff.mp he
    rcases List.mem_append.mp hmm with hold | hnew
    · have := hs.cidFresh e hold
      omega
    · simp only [List.mem_singleton] at hnew
      subst hnew
      omega
  · intro r' p hp
    have hre : roomMembers (join_room u w "workspace" (connect_store now u w s)) r'
        = roomMembers s r' :=
      roomMembers_congr (hjpr.trans hpr) (hjtr.trans htr) r'
    have hmem : p ∈ roomMembers s r' := by
      rw [hre] at hp
      exact hp
    obtain ⟨cp, hcp, hsub⟩ := hs.idxSub r' p hmem
    have hpne : p ≠ u := by
      rintro rfl
      rw [hu] at hcp
      exact absurd hcp (by simp)
    have hcpfresh : cp < s.next_conn :=
      hs.cidFresh (p, cp) (mem_of_alookup_eq_some hcp)
    refine ⟨cp, ?_, ?_⟩
    · rw [hjwc, hwc]
      rw [h2 p hpne]
      exact hcp
    · have hg : getConn (join_room u w "workspace" (connect_store now u w s)) cp
          = getConn s cp := by
        rw [getConn, hjheap, hheap]
        rw [alookup_ainsert, alookup_ainsert]
        rw [if_neg (by omega), if_neg (by omega)]
        rfl
      rw [hg]
      exact hsub

theorem flat_after_erase {s : WSManager} {w : String} {inner : List (String × Nat)}
    (u : String) (hlw : alookup s.workspace_connections w = some inner) :
    List.Sublist (flatWC (ainsert s.workspace_connections w (aerase inner u)))
      (flatWC s.workspace_connections) ∧
    (∀ p, p ≠ u → alookup (flatWC (ainsert s.workspace_connections w (aerase inner u))) p
      = alookup (flatWC s.workspace_connections) p) := by
  obtain ⟨pre, suf, h1, h2⟩ := flat_ainsert_found hlw (aerase inner u)
  rw [h1, h2]
  constructor
  · exact ((aerase_sublist inner u).append_right suf).append_left pre
  · intro p hp
    cases hx : alookup pre p with
    | some v => rw [alookup_append_of_some hx, alookup_append_of_some hx]
    | none =>
      rw [alookup_append_of_none hx, alookup_append_of_none hx]
      cases hy : alookup inner p with
      | some v =>
        rw [alookup_append_of_some hy,
          alookup_append_of_some (by rw [alookup_aerase_ne inner hp]; exact hy)]
      | none =>
        rw [alookup_append_of_none hy,
          alookup_append_of_none (by rw [alookup_aerase_ne inner hp]; exact hy)]

theorem teardownFold_wc (u : String) (rooms : List String) (s : WSManager) :
    (teardownFold u rooms s).workspace_connections = s.workspace_connections :=
  foldl_leave_wc u rooms s

theorem teardownFold_next (u : String) (rooms : List String) (s : WSManager) :
    (teardownFold u rooms s).next_conn = s.next_conn :=
  foldl_leave_next u rooms s

theorem teardownFold_clears (u : String) :
    ∀ (rooms : List String) (s : WSManager), Inv s →
      (∀ r, u ∈ roomMembers s r → r ∈ rooms) →
      Inv (teardownFold u rooms s) ∧ ∀ r, u ∉ roomMembers (teardownFold u rooms s) r := by
  intro rooms
  induction rooms with
  | nil =>
    intro s hs hcond
    exact ⟨hs, fun r hr => absurd (hcond r hr) (List.not_mem_nil r)⟩
  | cons r rest ih =>
    intro s hs hcond
    have hs2 := Inv_leave_room hs u r
    have hcond2 : ∀ r2, u ∈ roomMembers (leave_room u r s) r2 → r2 ∈ rest := by
      intro r2 hr2
      obtain ⟨hm, hne⟩ := leave_room_members hr2
      rcases List.mem_cons.mp (hcond r2 hm) with h | h
      · exact absurd ⟨rfl, h⟩ hne
      · exact h
    have step : teardownFold u (r :: rest) s = teardownFold u rest (leave_room u r s) := rfl
    rw [step]
    exact ih (leave_room u r s) hs2 hcond2

theorem disconnect_registry_fields (u w : String) (s : WSManager)
    {inner : List (String × Nat)} {cid : Nat}
    (hlw : alookup s.workspace_connections w = some inner)
    (hlu : alookup inner u = some cid) :
    (disconnect_registry u w s).workspace_connections
        = ainsert s.workspace_connections w (aerase inner u) ∧
    (disconnect_registry u w s).conn_heap
        = (teardownFold u (getConn s cid).subscriptions s).conn_heap ∧
    (disconnect_registry u w s).next_conn = s.next_conn ∧
    (disconnect_registry u w s).project_rooms
        = (teardownFold u (getConn s cid).subscriptions s).project_rooms ∧
    (disconnect_registry u w s).task_rooms
        = (teardownFold u (getConn s cid).subscriptions s).task_rooms := by
  simp only [disconnect_registry, hlw, hlu]
  split_ifs <;>
    refine ⟨by simp [teardownFold_wc, hlw], rfl, by simp [teardownFold_next], rfl, rfl⟩

theorem Inv_disconnect_registry {s : WSManager} (hs : Inv s) (u w : String) :
    Inv (disconnect_registry u w s) := by
  cases hlw : alookup s.workspace_connections w with
  | none =>
    rw [disconnect_registry_absent u w s (by simp [hlw])]
    exact hs
  | some inner =>
    cases hlu : alookup inner u with
    | none =>
      rw [disconnect_registry_absent u w s (by simp [hlw, hlu])]
      exact hs
    | some cid =>
      have hufl : alookup (flatWC s.workspace_connections) u = some cid :=
        alookup_eq_of_mem_of_nodup hs.flatKeys
          (mem_flat_of_inner hlw (mem_of_alookup_eq_some hlu))
      have hcond : ∀ r, u ∈ roomMembers s r → r ∈ (getConn s cid).subscriptions := by
        intro r hr
        obtain ⟨cp, hcp, hsub⟩ := hs.idxSub r u hr
        rw [hufl] at hcp
        injection hcp with hcc
        subst hcc
        exact hsub
      obtain ⟨hsf, hclear⟩ :=
        teardownFold_clears u (getConn s cid).subscriptions s hs hcond
      obtain ⟨hwc, hheap, hnext, hpr, htr⟩ := disconnect_registry_fields u w s hlw hlu
      obtain ⟨hsub, hlook⟩ := flat_after_erase u hlw
      have hsubm : List.Sublist ((flatWC (ainsert s.workspace_connections w
          (aerase inner u))).map Prod.fst) ((flatWC s.workspace_connections).map Prod.fst) :=
        hsub.map Prod.fst
      refine ⟨?_, ?_, ?_, ?_⟩
      · rw [hwc]
        exact hs.flatKeys.sublist (by simpa [akeys_eq] using hsubm)
      · rw [hwc]
        exact hs.flatCids.sublist (hsub.map Prod.snd)
      · intro e he
        rw [hwc] at he
        rw [hnext]
        exact hs.cidFresh e (hsub.subset he)
      · intro r' p hp
        have hre : roomMembers (disconnect_registry u w s) r'
            = roomMembers (teardownFold u (getConn s cid).subscriptions s) r' :=
          roomMembers_congr hpr htr r'
        rw [hre] at hp
        have hpne : p ≠ u := by
          rintro rfl
          exact hclear r' hp
        obtain ⟨cp, hcp, hsub2⟩ := hsf.idxSub r' p hp
        rw [teardownFold_wc] at hcp
        refine ⟨cp, ?_, ?_⟩
        · rw [hwc, hlook p hpne]
          exact hcp
        · have hg : getConn (disconnect_registry u w s) cp
              = getConn (teardownFold u (getConn s cid).subscriptions s) cp := by
            rw [getConn, getConn, hheap]
          rw [hg]
          exact hsub2

theorem Inv_init : Inv initWS := by
  refine ⟨by simp [initWS, flatWC], by simp [initWS, flatWC], ?_, ?_⟩
  · intro e he
    simp [initWS, flatWC] at he
  · intro r p hp
    simp [roomMembers, initWS] at hp

theorem Inv_applyOp {s : WSManager} (hs : Inv s) (op : Op)
    (hplain : (match op with
      | Op.connectOp _ u _ => !(connectedSomewhere s u)
      | _ => true) = true) :
    Inv (applyOp s op) := by
  cases op with
  | connectOp now u w =>
    have hscan : scanConnection s.workspace_connections u = none := by
      simp only [connectedSomewhere, Bool.not_eq_true'] at hplain
      cases hx : scanConnection s.workspace_connections u with
      | none => rfl
      | some c => rw [hx] at hplain; simp at hplain
    have hfuel : ((alookup s.workspace_connections w).getD []).length + 3 ≤ opFuel s := by
      have := inner_le_stored s w
      simp only [opFuel]
      omega
    obtain ⟨hexc, n, hst⟩ :=
      connect_ok allOk (fun _ => rfl) now u w (opFuel s) s hfuel
    show Inv (connect allOk now u w (opFuel s) s).st
    rw [hst]
    exact Inv_msgs.mpr (Inv_connect_registry hs now u w hscan)
  | joinOp u r t => exact Inv_join_room hs u r t
  | leaveOp u r => exact Inv_leave_room hs u r
  | disconnectOp u w =>
    have hfuel : ((alookup s.workspace_connections w).getD []).length + 2 ≤ opFuel s := by
      have := inner_le_stored s w
      simp only [opFuel]
      omega
    obtain ⟨hexc, n, hst⟩ :=
      disconnect_ok allOk (fun _ => rfl) u w (opFuel s) s hfuel
    show Inv (disconnect allOk u w (opFuel s) s).st
    rw [hst]
    exact Inv_msgs.mpr (Inv_disconnect_registry hs u w)

theorem runFrom_inv : ∀ (ops : List Op) (s : WSManager), Inv s →
    PlainFromB s ops = true → Inv (runFrom s ops) := by
  intro ops
  induction ops with
  | nil => intro s hs _; exact hs
  | cons op rest ih =>
    intro s hs hplain
    simp only [PlainFromB, Bool.and_eq_true] at hplain
    exact ih (applyOp s op) (Inv_applyOp hs op hplain.1) hplain.2

theorem run_inv (ops : List Op) (h : PlainB ops = true) : Inv (run ops) :=
  runFrom_inv ops initWS Inv_init h

theorem teardownFold_sys (u : String) (rooms : List String) (s : WSManager) :
    (teardownFold u rooms s).system_connections = s.system_connections :=
  foldl_leave_sys u rooms s

theorem connect_store_sys (now : Nat) (u w : String) (s : WSManager) :
    (connect_store now u w s).system_connections
      = ainsert s.system_connections u s.next_conn := by
  cases hlw : alookup s.workspace_connections w with
  | none => simp [connect_store, hlw]
  | some inner => simp [connect_store, hlw]

theorem connect_registry_sys (now : Nat) (u w : String) (s : WSManager) :
    (connect_registry now u w s).system_connections
      = ainsert s.system_connections u s.next_conn := by
  rw [connect_registry, join_room_sys, connect_store_sys]

theorem connect_registry_next (now : Nat) (u w : String) (s : WSManager) :
    (connect_registry now u w s).next_conn = s.next_conn + 1 := by
  rw [connect_registry, join_room_next]
  exact (connect_store_fields now u w s).2.2.1

theorem connect_registry_rooms (now : Nat) (u w : String) (s : WSManager) :
    (connect_registry now u w s).project_rooms = s.project_rooms ∧
    (connect_registry now u w s).task_rooms = s.task_rooms := by
  obtain ⟨hjp, hjt⟩ := join_room_rooms_workspace u w (connect_store now u w s)
  obtain ⟨_, _, _, hsp, hst⟩ := connect_store_fields now u w s
  exact ⟨hjp.trans hsp, hjt.trans hst⟩

theorem connect_registry_conn (now : Nat) (u w : String) (s : WSManager)
    (hscanst : scanConnection (connect_store now u w s).workspace_connections u
      = some s.next_conn) :
    getConn (connect_registry now u w s) s.next_conn
      = { user_id := u, workspace_id := w, connected_at := now, subscriptions := [w] } := by
  show getConn (join_room u w "workspace" (connect_store now u w s)) s.next_conn = _
  have hgc : getConn (connect_store now u w s) s.next_conn
      = { user_id := u, workspace_id := w, connected_at := now, subscriptions := [] } := by
    obtain ⟨_, hheap, _, _, _⟩ := connect_store_fields now u w s
    simp [getConn, hheap, alookup_ainsert]
  rw [getConn, join_room_heap w "workspace" hscanst, alookup_ainsert, if_pos rfl]
  rw [hgc]
  simp [sinsert]

theorem disconnect_registry_sys (u w : String) (s : WSManager)
    {inner : List (String × Nat)} {cid : Nat}
    (hlw : alookup s.workspace_connections w = some inner)
    (hlu : alookup inner u = some cid) :
    (disconnect_registry u w s).system_connections
      = (if (alookup s.system_connections u).isSome then
          aerase s.system_connections u else s.system_connections) := by
  simp only [disconnect_registry, hlw, hlu]
  split_ifs with h1 h2 h2 <;>
    simp_all [teardownFold_sys]

/-! Extra shared helper lemmas. -/

theorem mem_akeys_ainsert_self {α β : Type} [DecidableEq α] (m : List (α × β)) (k : α) (v : β) :
    k ∈ akeys (ainsert m k v) := by
  induction m with
  | nil => simp [ainsert]
  | cons e rest ih =>
    obtain ⟨a, b⟩ := e
    by_cases hk : k = a
    · subst hk
      simp [ainsert]
    · simpa [ainsert, hk] using ih

theorem mem_akeys_ainsert {α β : Type} [DecidableEq α] {m : List (α × β)} {k x : α} {v : β}
    (h : x ∈ akeys (ainsert m k v)) : x = k ∨ x ∈ akeys m := by
  induction m with
  | nil => simpa [ainsert] using h
  | cons e rest ih =>
    obtain ⟨a, b⟩ := e
    by_cases hk : k = a
    · subst hk
      rw [show ainsert ((k, b) :: rest) k v = (k, v) :: rest from by simp [ainsert]] at h
      simp only [akeys_cons, List.mem_cons] at h ⊢
      tauto
    · rw [show ainsert ((a, b) :: rest) k v = (a, b) :: ainsert rest k v from by
        simp [ainsert, hk]] at h
      simp only [akeys_cons, List.mem_cons] at h ⊢
      rcases h with h | h
      · tauto
      · rcases ih h with h | h <;> tauto

theorem nodup_akeys_ainsert {α β : Type} [DecidableEq α] {m : List (α × β)} (k : α) (v : β)
    (h : (akeys m).Nodup) : (akeys (ainsert m k v)).Nodup := by
  induction m with
  | nil => simp [ainsert]
  | cons e rest ih =>
    obtain ⟨a, b⟩ := e
    simp only [akeys_cons, List.nodup_cons] at h
    by_cases hk : k = a
    · subst hk
      rw [show ainsert ((k, b) :: rest) k v = (k, v) :: rest from by simp [ainsert]]
      simp only [akeys_cons, List.nodup_cons]
      exact h
    · rw [show ainsert ((a, b) :: rest) k v = (a, b) :: ainsert rest k v from by
        simp [ainsert, hk]]
      simp only [akeys_cons, List.nodup_cons]
      refine ⟨fun hmem => ?_, ih h.2⟩
      rcases mem_akeys_ainsert hmem with heq | hm
      · exact hk heq.symm
      · exact h.1 hm

theorem sent_injective (msg : WSMsg) : Function.Injective (fun u => Effect.sent u msg) := by
  intro a b h
  simpa using h

theorem mem_deliveredTo {sys : List (String × Nat)} {excl : Option String}
    {users : List String} {u : String} :
    u ∈ deliveredTo sys excl users ↔
      u ∈ users ∧ excl ≠ some u ∧ (alookup sys u).isSome := by
  simp [deliveredTo, List.mem_filter, and_assoc]

theorem nodup_deliveredTo {sys : List (String × Nat)} {excl : Option String}
    {users : List String} (h : users.Nodup) : (deliveredTo sys excl users).Nodup :=
  List.Nodup.filter _ h

theorem count_sent_map (msg : WSMsg) (users : List String) (hnd : users.Nodup)
    (u : String) (hu : u ∈ users) :
    List.count (Effect.sent u msg) (users.map (fun x => Effect.sent x msg)) = 1 :=
  List.count_eq_one_of_mem (List.Nodup.map (sent_injective msg) hnd)
    (List.mem_map_of_mem _ hu)

theorem count_sent_map_zero (msg : WSMsg) (users : List String) (u : String)
    (hu : u ∉ users) :
    List.count (Effect.sent u msg) (users.map (fun x => Effect.sent x msg)) = 0 := by
  rw [List.count_eq_zero]
  intro hmem
  obtain ⟨x, hx, heq⟩ := List.mem_map.mp hmem
  simp only [Effect.sent.injEq] at heq
  exact hu (heq.1 ▸ hx)

/-! Claim theorems. -/

/-- C1 (amended): over every plain trace of Connect / JoinRoom / LeaveRoom /
Disconnect operations (each Connect for a principal with no live connection),
Room Index membership implies that the member's connection subscribes to the
room. -/
theorem C1_room_index_subset_subscriptions (ops : List Op) (h : PlainB ops = true)
    (r p : String) (hp : p ∈ roomMembers (run ops) r) :
    ∃ c, scanConnection (run ops).workspace_connections p = some c ∧
      r ∈ (getConn (run ops) c).subscriptions := by
  obtain ⟨c, hc, hsub⟩ := (run_inv ops h).idxSub r p hp
  exact ⟨c, by rw [scan_eq_flat]; exact hc, hsub⟩

/-- C1 counterexample: the workspace room auto-subscribed by Connect is in
the connection's subscription set but the principal is in no Room Index
entry for it, refuting the subscription-implies-membership direction. -/
theorem C1_counterexample :
    "w" ∈ subsOf (run [Op.connectOp 0 "u" "w"]) "u" ∧
    "u" ∉ roomMembers (run [Op.connectOp 0 "u" "w"]) "w" := by decide

/-- C1 witness: a concrete plain trace where the amended implication fires. -/
theorem C1_witness :
    ∃ c, scanConnection
        (run [Op.connectOp 0 "u" "w", Op.joinOp "u" "r" "project"]).workspace_connections
        "u" = some c ∧
      "r" ∈ (getConn (run [Op.connectOp 0 "u" "w", Op.joinOp "u" "r" "project"]) c).subscriptions :=
  C1_room_index_subset_subscriptions
    [Op.connectOp 0 "u" "w", Op.joinOp "u" "r" "project"] (by decide) "r" "u" (by decide)

/-- C2 (amended): when every send succeeds and fuel suffices, the user_joined
broadcast of Connect is delivered to every member of the workspace dict in
the post-state — including the newly connecting principal, because the code
passes no exclude_user. -/
theorem C2_user_joined_delivered_to_all (env : Env)
    (henv : ∀ u, env.sendOk u = true) (now : Nat) (uid wsid : String) (fuel : Nat)
    (s : WSManager)
    (hfuel : ((alookup s.workspace_connections wsid).getD []).length + 3 ≤ fuel) :
    uid ∈ wsMembers (connect env now uid wsid fuel s).st wsid ∧
    (∀ u, u ∈ wsMembers (connect env now uid wsid fuel s).st wsid →
      Effect.sent u (userJoinedMsg uid wsid) ∈ (connect env now uid wsid fuel s).log) ∧
    (connect env now uid wsid fuel s).exc = none := by
  have hlen : ((alookup (connect_registry now uid wsid s).workspace_connections
      wsid).getD []).length + 2 ≤ fuel := by
    rw [connect_registry_wc, alookup_ainsert]
    have := length_ainsert_le ((alookup s.workspace_connections wsid).getD []) uid s.next_conn
    simp
    omega
  obtain ⟨hexc, n, hst⟩ := connect_ok env henv now uid wsid fuel s hfuel
  refine ⟨?_, ?_, hexc⟩
  · rw [hst]
    show uid ∈ wsMembers (connect_registry now uid wsid s) wsid
    simp only [wsMembers]
    rw [connect_registry_wc, alookup_ainsert]
    simp only [if_pos rfl, Option.getD_some]
    exact mem_akeys_ainsert_self _ _ _
  · intro u hu
    rw [hst] at hu
    have hu' : u ∈ wsMembers (connect_registry now uid wsid s) wsid := hu
    simp only [wsMembers] at hu'
    rw [connect_registry_wc, alookup_ainsert] at hu'
    simp only [if_pos rfl, Option.getD_some, akeys_eq] at hu'
    rw [connect_eq_bcast env now uid wsid fuel s,
        broadcast_ws_ok env henv wsid (userJoinedMsg uid wsid) none fuel _ hlen]
    simp only [Res.withLog, keptBy_none]
    rw [connect_registry_wc, alookup_ainsert]
    simp only [if_pos rfl, Option.getD_some]
    refine List.mem_append_right _ ?_
    obtain ⟨e, he, hfst⟩ := List.mem_map.mp hu'
    exact List.mem_map.mpr ⟨e, he, by rw [hfst]⟩

/-- C2 counterexample: a second principal connecting to the same workspace
receives its own user_joined event, refuting the claimed exclusion. -/
theorem C2_counterexample :
    Effect.sent "u2" (userJoinedMsg "u2" "w")
      ∈ (connect allOk 1 "u2" "w" 5 (connect allOk 0 "u1" "w" 5 initWS).st).log := by decide

/-- C2 witness: the amended delivery property at a concrete connect. -/
theorem C2_witness :
    "u" ∈ wsMembers (connect allOk 0 "u" "w" 5 initWS).st "w" ∧
    (∀ x, x ∈ wsMembers (connect allOk 0 "u" "w" 5 initWS).st "w" →
      Effect.sent x (userJoinedMsg "u" "w") ∈ (connect allOk 0 "u" "w" 5 initWS).log) ∧
    (connect allOk 0 "u" "w" 5 initWS).exc = none :=
  C2_user_joined_delivered_to_all allOk (fun _ => rfl) 0 "u" "w" 5 initWS (by decide)

/-- C3: a second Connect for the same (principal, workspace) pair leaves
exactly one stored connection — the second one — attempts to close the first
socket, and raises nothing regardless of the close outcome. -/
theorem C3_supersede_single_connection (p w : String) (now1 now2 : Nat) (env : Env)
    (hsend : ∀ u, env.sendOk u = true) :
    (alookup (connect env now2 p w 5 (connect env now1 p w 5 initWS).st).st.workspace_connections w)
        = some [(p, 1)] ∧
    (getConn (connect env now2 p w 5 (connect env now1 p w 5 initWS).st).st 1).connected_at = now2 ∧
    Effect.socketCloseAttempt p w (env.closeOk p)
        ∈ (connect env now2 p w 5 (connect env now1 p w 5 initWS).st).log ∧
    (connect env now2 p w 5 (connect env now1 p w 5 initWS).st).exc = none := by
  have hf1 : ((alookup initWS.workspace_connections w).getD []).length + 3 ≤ 5 := by
    simp [initWS]
  obtain ⟨hexc1, n1, hst1⟩ := connect_ok env hsend now1 p w 5 initWS hf1
  have hwc1 : (connect env now1 p w 5 initWS).st.workspace_connections = [(w, [(p, 0)])] := by
    rw [hst1]
    show (connect_registry now1 p w initWS).workspace_connections = _
    rw [connect_registry_wc]
    simp [initWS, ainsert]
  have hnext1 : (connect env now1 p w 5 initWS).st.next_conn = 1 := by
    rw [hst1]
    show (connect_registry now1 p w initWS).next_conn = 1
    rw [connect_registry_next]
    rfl
  generalize hg : (connect env now1 p w 5 initWS).st = s1 at hwc1 hnext1 ⊢
  have hf2 : ((alookup s1.workspace_connections w).getD []).length + 3 ≤ 5 := by
    rw [hwc1]
    simp [alookup]
  obtain ⟨hexc2, n2, hst2⟩ := connect_ok env hsend now2 p w 5 s1 hf2
  refine ⟨?_, ?_, ?_, hexc2⟩
  · rw [hst2]
    show alookup (connect_registry now2 p w s1).workspace_connections w = some [(p, 1)]
    rw [connect_registry_wc, hwc1, hnext1]
    simp [ainsert, alookup]
  · rw [hst2]
    show (getConn (connect_registry now2 p w s1) 1).connected_at = now2
    have hscanst : scanConnection (connect_store now2 p w s1).workspace_connections p
        = some s1.next_conn := by
      obtain ⟨hwcst, _, _, _, _⟩ := connect_store_fields now2 p w s1
      rw [scan_eq_flat, hwcst, hwc1]
      simp [ainsert, alookup, flatWC, hnext1]
    have hcn := connect_registry_conn now2 p w s1 hscanst
    rw [hnext1] at hcn
    rw [hcn]
  · rw [connect_eq_bcast]
    simp only [Res.withLog, hwc1]
    simp [alookup]

/-- C3 witness: the superseding reconnect at a concrete pair in the
all-success environment. -/
theorem C3_witness :
    (alookup (connect allOk 1 "p" "w" 5 (connect allOk 0 "p" "w" 5 initWS).st).st.workspace_connections "w")
        = some [("p", 1)] ∧
    (getConn (connect allOk 1 "p" "w" 5 (connect allOk 0 "p" "w" 5 initWS).st).st 1).connected_at = 1 ∧
    Effect.socketCloseAttempt "p" "w" (allOk.closeOk "p")
        ∈ (connect allOk 1 "p" "w" 5 (connect allOk 0 "p" "w" 5 initWS).st).log ∧
    (connect allOk 1 "p" "w" 5 (connect allOk 0 "p" "w" 5 initWS).st).exc = none :=
  C3_supersede_single_connection "p" "w" 0 1 allOk (fun _ => rfl)

/-- C4 (code bug): in a three-member workspace room where only m1's sends
fail, `broadcast_to_workspace` raises the dictionary-changed-size
RuntimeError (the teardown of m1 mutates the dict being iterated), m2 is
never delivered to, and m1 is torn down; the same failure in
`broadcast_to_project` (which iterates a copy through
send_personal_message) is isolated: no exception and m2 is delivered. -/
theorem C4_workspace_broadcast_not_failure_isolated :
    ((broadcast_to_workspace (envFailing "m1") "w" (taskUpdatedMsg "t" "x" "pr") none 9
        (run [Op.connectOp 0 "m1" "w", Op.connectOp 1 "m2" "w", Op.connectOp 2 "m3" "w",
              Op.joinOp "m1" "pr" "project", Op.joinOp "m2" "pr" "project",
              Op.joinOp "m3" "pr" "project"])).exc = some Exc.runtimeError) ∧
    (Effect.sent "m2" (taskUpdatedMsg "t" "x" "pr")
        ∉ (broadcast_to_workspace (envFailing "m1") "w" (taskUpdatedMsg "t" "x" "pr") none 9
            (run [Op.connectOp 0 "m1" "w", Op.connectOp 1 "m2" "w", Op.connectOp 2 "m3" "w",
                  Op.joinOp "m1" "pr" "project", Op.joinOp "m2" "pr" "project",
                  Op.joinOp "m3" "pr" "project"])).log) ∧
    ("m1" ∉ wsMembers (broadcast_to_workspace (envFailing "m1") "w" (taskUpdatedMsg "t" "x" "pr") none 9
            (run [Op.connectOp 0 "m1" "w", Op.connectOp 1 "m2" "w", Op.connectOp 2 "m3" "w",
                  Op.joinOp "m1" "pr" "project", Op.joinOp "m2" "pr" "project",
                  Op.joinOp "m3" "pr" "project"])).st "w") ∧
    ((broadcast_to_project (envFailing "m1") "pr" (taskUpdatedMsg "t" "x" "pr") none 9
        (run [Op.connectOp 0 "m1" "w", Op.connectOp 1 "m2" "w", Op.connectOp 2 "m3" "w",
              Op.joinOp "m1" "pr" "project", Op.joinOp "m2" "pr" "project",
              Op.joinOp "m3" "pr" "project"])).exc = none) ∧
    (Effect.sent "m2" (taskUpdatedMsg "t" "x" "pr")
        ∈ (broadcast_to_project (envFailing "m1") "pr" (taskUpdatedMsg "t" "x" "pr") none 9
            (run [Op.connectOp 0 "m1" "w", Op.connectOp 1 "m2" "w", Op.connectOp 2 "m3" "w",
                  Op.joinOp "m1" "pr" "project", Op.joinOp "m2" "pr" "project",
                  Op.joinOp "m3" "pr" "project"])).log) := by decide

/-- C5 (code bug): a superseding reconnect orphans the first connection's
room memberships, so after Connect, JoinRoom, Connect, Disconnect the
principal still appears in the project room's member set; the second
Disconnect is an errorless no-op as claimed, but residual memberships
remain. -/
theorem C5_disconnect_leaves_residual_membership :
    ("u" ∈ roomMembers (run [Op.connectOp 0 "u" "w", Op.joinOp "u" "r" "project",
        Op.connectOp 1 "u" "w", Op.disconnectOp "u" "w"]) "r") ∧
    ((disconnect allOk "u" "w" 9 (run [Op.connectOp 0 "u" "w", Op.joinOp "u" "r" "project",
        Op.connectOp 1 "u" "w", Op.disconnectOp "u" "w"])).exc = none) ∧
    ((disconnect allOk "u" "w" 9 (run [Op.connectOp 0 "u" "w", Op.joinOp "u" "r" "project",
        Op.connectOp 1 "u" "w", Op.disconnectOp "u" "w"])).st
      = run [Op.connectOp 0 "u" "w", Op.joinOp "u" "r" "project",
        Op.connectOp 1 "u" "w", Op.disconnectOp "u" "w"]) := by decide

/-- C8 (code bug): after a superseding Connect for an already-connected
pair, total_connections reads 2 and the per-workspace counter reads 2 while
only one connection is stored, refuting the stats-accuracy invariant. -/
theorem C8_stats_drift_on_supersede :
    ((run [Op.connectOp 0 "u" "w", Op.connectOp 1 "u" "w"]).total_connections = 2) ∧
    (storedConns (run [Op.connectOp 0 "u" "w", Op.connectOp 1 "u" "w"]) = 1) ∧
    (alookup (run [Op.connectOp 0 "u" "w", Op.connectOp 1 "u" "w"]).connections_per_workspace "w"
      = some 2) ∧
    ((wsMembers (run [Op.connectOp 0 "u" "w", Op.connectOp 1 "u" "w"]) "w").length = 1) := by
  decide

/-- C6: when the assignee has a delivery connection, every project-room
member has one, the member list is duplicate-free and all sends succeed,
notify_task_assigned first sends the task_assigned event personally to the
assignee (head of the log), the assignee receives exactly one copy, every
other project-room member receives exactly one copy, and no exception is
raised. -/
theorem C6_assignment_single_delivery (env : Env) (henv : ∀ u, env.sendOk u = true)
    (tid ato aby pid : String) (fuel : Nat) (s : WSManager) (hf : 1 ≤ fuel)
    (hato : (alookup s.system_connections ato).isSome)
    (hmem : ∀ m ∈ (alookup s.project_rooms pid).getD [],
      (alookup s.system_connections m).isSome)
    (hnd : ((alookup s.project_rooms pid).getD []).Nodup) :
    (notify_task_assigned env tid ato aby pid fuel s).exc = none ∧
    (notify_task_assigned env tid ato aby pid fuel s).log.head?
        = some (Effect.sent ato (taskAssignedMsg tid ato aby pid)) ∧
    List.count (Effect.sent ato (taskAssignedMsg tid ato aby pid))
        (notify_task_assigned env tid ato aby pid fuel s).log = 1 ∧
    ∀ m, m ∈ (alookup s.project_rooms pid).getD [] → m ≠ ato →
      List.count (Effect.sent m (taskAssignedMsg tid ato aby pid))
        (notify_task_assigned env tid ato aby pid fuel s).log = 1 := by
  obtain ⟨c, hc⟩ := Option.isSome_iff_exists.mp hato
  have key : notify_task_assigned env tid ato aby pid fuel s =
      { st := { s with messages_sent := s.messages_sent + 1 +
          (deliveredTo s.system_connections (some ato)
            ((alookup s.project_rooms pid).getD [])).length }
        log := Effect.sent ato (taskAssignedMsg tid ato aby pid) ::
          (deliveredTo s.system_connections (some ato)
            ((alookup s.project_rooms pid).getD [])).map
            (fun u => Effect.sent u (taskAssignedMsg tid ato aby pid))
        exc := none } := by
    rw [notify_task_assigned,
        spm_ok_present env henv ato (taskAssignedMsg tid ato aby pid) fuel s hf hc]
    simp only [Res.andThen, Res.ok]
    rw [bproj_ok env henv pid (taskAssignedMsg tid ato aby pid) (some ato) fuel
        { s with messages_sent := s.messages_sent + 1 } hf]
    simp
  rw [key]
  refine ⟨rfl, rfl, ?_, ?_⟩
  · simp only [List.count_cons]
    rw [count_sent_map_zero]
    · simp
    · intro hmem'
      rw [mem_deliveredTo] at hmem'
      exact hmem'.2.1 rfl
  · intro m hm hne
    have hmd : m ∈ deliveredTo s.system_connections (some ato)
        ((alookup s.project_rooms pid).getD []) :=
      mem_deliveredTo.mpr ⟨hm, fun h => hne (Option.some.inj h).symm, hmem m hm⟩
    simp only [List.count_cons]
    rw [count_sent_map _ _ (nodup_deliveredTo hnd) m hmd]
    simp [hne, Ne.symm hne]

/-- C6 witness: a concrete registry with assignee and one other project
member, both holding delivery connections. -/
theorem C6_witness :
    List.count (Effect.sent "a" (taskAssignedMsg "t" "a" "b" "pr"))
        (notify_task_assigned allOk "t" "a" "b" "pr" 9 exAssign).log = 1 :=
  (C6_assignment_single_delivery allOk (fun _ => rfl) "t" "a" "b" "pr" 9 exAssign
    (by decide) (by decide) (by decide) (by decide)).2.2.1

/-- C10: notify_task_updated broadcasts the same task_updated event to the
project room and then to the task room, excluding only the updater from
each, so a non-updater member of both rooms with a delivery connection is
delivered exactly two copies. -/
theorem C10_double_delivery_to_dual_members (env : Env) (henv : ∀ u, env.sendOk u = true)
    (tid upd pid : String) (fuel : Nat) (s : WSManager) (hf : 1 ≤ fuel)
    (m : String)
    (hmp : m ∈ (alookup s.project_rooms pid).getD [])
    (hmt : m ∈ (alookup s.task_rooms tid).getD [])
    (hne : m ≠ upd)
    (hsys : (alookup s.system_connections m).isSome)
    (hndp : ((alookup s.project_rooms pid).getD []).Nodup)
    (hndt : ((alookup s.task_rooms tid).getD []).Nodup) :
    (notify_task_updated env tid upd pid fuel s).exc = none ∧
    List.count (Effect.sent m (taskUpdatedMsg tid upd pid))
        (notify_task_updated env tid upd pid fuel s).log = 2 := by
  have key : notify_task_updated env tid upd pid fuel s =
      { st := { s with messages_sent := s.messages_sent +
          (deliveredTo s.system_connections (some upd)
            ((alookup s.project_rooms pid).getD [])).length +
          (deliveredTo s.system_connections (some upd)
            ((alookup s.task_rooms tid).getD [])).length }
        log := (deliveredTo s.system_connections (some upd)
            ((alookup s.project_rooms pid).getD [])).map
            (fun u => Effect.sent u (taskUpdatedMsg tid upd pid)) ++
          (deliveredTo s.system_connections (some upd)
            ((alookup s.task_rooms tid).getD [])).map
            (fun u => Effect.sent u (taskUpdatedMsg tid upd pid))
        exc := none } := by
    rw [notify_task_updated,
        bproj_ok env henv pid (taskUpdatedMsg tid upd pid) (some upd) fuel s hf]
    simp only [Res.andThen]
    rw [btask_ok env henv tid (taskUpdatedMsg tid upd pid) (some upd) fuel
        { s with messages_sent := s.messages_sent +
          (deliveredTo s.system_connections (some upd)
            ((alookup s.project_rooms pid).getD [])).length } hf]
  rw [key]
  have hexcl : (some upd : Option String) ≠ some m := by
    intro h
    injection h with h1
    exact hne h1.symm
  refine ⟨rfl, ?_⟩
  rw [List.count_append,
      count_sent_map _ _ (nodup_deliveredTo hndp) m
        (mem_deliveredTo.mpr ⟨hmp, hexcl, hsys⟩),
      count_sent_map _ _ (nodup_deliveredTo hndt) m
        (mem_deliveredTo.mpr ⟨hmt, hexcl, hsys⟩)]

/-- C10 witness: a member of both the project room and the task room, not
the updater, receives two copies. -/
theorem C10_witness :
    (notify_task_updated allOk "tk" "u" "pr" 9 exUpd).exc = none ∧
    List.count (Effect.sent "m" (taskUpdatedMsg "tk" "u" "pr"))
        (notify_task_updated allOk "tk" "u" "pr" 9 exUpd).log = 2 :=
  C10_double_delivery_to_dual_members allOk (fun _ => rfl) "tk" "u" "pr" 9 exUpd
    (by decide) "m" (by decide) (by decide) (by decide) (by decide) (by decide) (by decide)

/-- C9: after Connect(p, w1), Connect(p, w2), Disconnect(p, w1) the global
system_connections delivery map has no entry for p, so a personal send to p
is an errorless no-op (silent drop), while p's w2 connection is still
stored, still allocated, and still receives workspace broadcasts. -/
theorem C9_send_to_principal_silently_dropped (p w1 w2 : String) (now1 now2 : Nat) (hne : w1 ≠ w2) :
    (alookup (disconnect allOk p w1 5 (connect allOk now2 p w2 5 (connect allOk now1 p w1 5 initWS).st).st).st.system_connections p = none) ∧
    (∀ msg fuel, 1 ≤ fuel → send_personal_message allOk p msg fuel
        (disconnect allOk p w1 5 (connect allOk now2 p w2 5 (connect allOk now1 p w1 5 initWS).st).st).st
      = Res.ok (disconnect allOk p w1 5 (connect allOk now2 p w2 5 (connect allOk now1 p w1 5 initWS).st).st).st []) ∧
    (alookup ((alookup (disconnect allOk p w1 5 (connect allOk now2 p w2 5 (connect allOk now1 p w1 5 initWS).st).st).st.workspace_connections w2).getD []) p = some 1) ∧
    (getConn (disconnect allOk p w1 5 (connect allOk now2 p w2 5 (connect allOk now1 p w1 5 initWS).st).st).st 1
      = { user_id := p, workspace_id := w2, connected_at := now2, subscriptions := [] }) ∧
    (∀ msg, Effect.sent p msg ∈ (broadcast_to_workspace allOk w2 msg none 5
        (disconnect allOk p w1 5 (connect allOk now2 p w2 5 (connect allOk now1 p w1 5 initWS).st).st).st).log) := by
  have hsend : ∀ u, allOk.sendOk u = true := fun _ => rfl
  have hf1 : ((alookup initWS.workspace_connections w1).getD []).length + 3 ≤ 5 := by
    simp [initWS]
  obtain ⟨hexc1, n1, hst1⟩ := connect_ok allOk hsend now1 p w1 5 initWS hf1
  have hwc1 : (connect allOk now1 p w1 5 initWS).st.workspace_connections
      = [(w1, [(p, 0)])] := by
    rw [hst1]
    show (connect_registry now1 p w1 initWS).workspace_connections = _
    rw [connect_registry_wc]
    simp [initWS, ainsert]
  have hnext1 : (connect allOk now1 p w1 5 initWS).st.next_conn = 1 := by
    rw [hst1]
    show (connect_registry now1 p w1 initWS).next_conn = 1
    rw [connect_registry_next]
    rfl
  have hsys1 : (connect allOk now1 p w1 5 initWS).st.system_connections = [(p, 0)] := by
    rw [hst1]
    show (connect_registry now1 p w1 initWS).system_connections = _
    rw [connect_registry_sys]
    rfl
  have hpr1 : (connect allOk now1 p w1 5 initWS).st.project_rooms = [] := by
    rw [hst1]
    show (connect_registry now1 p w1 initWS).project_rooms = _
    exact (connect_registry_rooms now1 p w1 initWS).1
  have htr1 : (connect allOk now1 p w1 5 initWS).st.task_rooms = [] := by
    rw [hst1]
    show (connect_registry now1 p w1 initWS).task_rooms = _
    exact (connect_registry_rooms now1 p w1 initWS).2
  have hheap1 : (connect allOk now1 p w1 5 initWS).st.conn_heap
      = [(0, { user_id := p, workspace_id := w1, connected_at := now1,
               subscriptions := [w1] })] := by
    rw [hst1]
    show (connect_registry now1 p w1 initWS).conn_heap = _
    have hscanst : scanConnection (connect_store now1 p w1 initWS).workspace_connections p
        = some initWS.next_conn := by
      obtain ⟨hwcst, _, _, _, _⟩ := connect_store_fields now1 p w1 initWS
      rw [scan_eq_flat, hwcst]
      simp [initWS, ainsert, alookup, flatWC]
    show (join_room p w1 "workspace" (connect_store now1 p w1 initWS)).conn_heap = _
    rw [join_room_heap w1 "workspace" hscanst]
    obtain ⟨_, hheapst, _, _, _⟩ := connect_store_fields now1 p w1 initWS
    rw [hheapst]
    simp [initWS, getConn, ainsert, alookup, sinsert]
  generalize hgen1 : (connect allOk now1 p w1 5 initWS).st = s1
    at hwc1 hnext1 hsys1 hpr1 htr1 hheap1 ⊢
  have hf2 : ((alookup s1.workspace_connections w2).getD []).length + 3 ≤ 5 := by
    rw [hwc1]
    simp [alookup, hne, Ne.symm hne]
  obtain ⟨hexc2, n2, hst2⟩ := connect_ok allOk hsend now2 p w2 5 s1 hf2
  have hwcst2 : (connect_store now2 p w2 s1).workspace_connections
      = [(w1, [(p, 0)]), (w2, [(p, 1)])] := by
    obtain ⟨hwcst, _, _, _, _⟩ := connect_store_fields now2 p w2 s1
    rw [hwcst, hwc1, hnext1]
    simp [ainsert, alookup, Ne.symm hne]
  have hscanst2 : scanConnection (connect_store now2 p w2 s1).workspace_connections p
      = some 0 := by
    rw [scan_eq_flat, hwcst2]
    simp [flatWC, alookup]
  have hwc2 : (connect allOk now2 p w2 5 s1).st.workspace_connections
      = [(w1, [(p, 0)]), (w2, [(p, 1)])] := by
    rw [hst2]
    show (connect_registry now2 p w2 s1).workspace_connections = _
    rw [connect_registry_wc, hwc1, hnext1]
    simp [ainsert, alookup, Ne.symm hne]
  have hsys2 : (connect allOk now2 p w2 5 s1).st.system_connections = [(p, 1)] := by
    rw [hst2]
    show (connect_registry now2 p w2 s1).system_connections = _
    rw [connect_registry_sys, hsys1, hnext1]
    simp [ainsert]
  have hpr2 : (connect allOk now2 p w2 5 s1).st.project_rooms = [] := by
    rw [hst2]
    show (connect_registry now2 p w2 s1).project_rooms = _
    rw [(connect_registry_rooms now2 p w2 s1).1, hpr1]
  have htr2 : (connect allOk now2 p w2 5 s1).st.task_rooms = [] := by
    rw [hst2]
    show (connect_registry now2 p w2 s1).task_rooms = _
    rw [(connect_registry_rooms now2 p w2 s1).2, htr1]
  have hheap2 : (connect allOk now2 p w2 5 s1).st.conn_heap
      = [(0, { user_id := p, workspace_id := w1, connected_at := now1,
               subscriptions := sinsert [w1] w2 }),
         (1, { user_id := p, workspace_id := w2, connected_at := now2,
               subscriptions := [] })] := by
    rw [hst2]
    show (join_room p w2 "workspace" (connect_store now2 p w2 s1)).conn_heap = _
    rw [join_room_heap w2 "workspace" hscanst2]
    obtain ⟨_, hheapst, _, _, _⟩ := connect_store_fields now2 p w2 s1
    have hg0 : getConn (connect_store now2 p w2 s1) 0
        = { user_id := p, workspace_id := w1, connected_at := now1,
            subscriptions := [w1] } := by
      rw [getConn, hheapst, hnext1, hheap1]
      simp [ainsert, alookup]
    rw [hg0, hheapst, hnext1, hheap1]
    simp [ainsert, alookup]
  generalize hgen2 : (connect allOk now2 p w2 5 s1).st = s2
    at hwc2 hsys2 hpr2 htr2 hheap2 ⊢
  -- disconnect p w1 from s2
  have hlw2 : alookup s2.workspace_connections w1 = some [(p, 0)] := by
    rw [hwc2]
    simp [alookup]
  have hlu2 : alookup [(p, (0 : Nat))] p = some 0 := by simp [alookup]
  have hf3 : ((alookup s2.workspace_connections w1).getD []).length + 2 ≤ 5 := by
    rw [hlw2]
    simp
  obtain ⟨hexc3, n3, hst3⟩ := disconnect_ok allOk hsend p w1 5 s2 hf3
  have hgc0 : getConn s2 0
      = { user_id := p, workspace_id := w1, connected_at := now1,
          subscriptions := sinsert [w1] w2 } := by
    rw [getConn, hheap2]
    simp [alookup]
  have hsubs : sinsert [w1] w2 = [w1, w2] := by
    simp [sinsert, hne, Ne.symm hne]
  have hfold : teardownFold p (getConn s2 0).subscriptions s2
      = { s2 with conn_heap :=
          [(0, { user_id := p, workspace_id := w1, connected_at := now1,
                 subscriptions := [] }),
           (1, { user_id := p, workspace_id := w2, connected_at := now2,
                 subscriptions := [] })] } := by
    rw [hgc0]
    simp only [hsubs]
    show teardownFold p [w1, w2] s2 = _
    rw [show teardownFold p [w1, w2] s2
        = leave_room p w2 (leave_room p w1 s2) from rfl]
    have hscan2 : scanConnection s2.workspace_connections p = some 0 := by
      rw [scan_eq_flat, hwc2]
      simp [flatWC, alookup]
    have hL1 : leave_room p w1 s2
        = { s2 with conn_heap :=
            [(0, { user_id := p, workspace_id := w1, connected_at := now1,
                   subscriptions := [w2] }),
             (1, { user_id := p, workspace_id := w2, connected_at := now2,
                   subscriptions := [] })] } := by
      simp only [leave_room, hscan2, hgc0, hsubs, hpr2, htr2]
      simp [alookup, sdiscard, hne, Ne.symm hne, hheap2, getConn, ainsert]
    rw [hL1]
    have hscan2b : scanConnection ({ s2 with conn_heap :=
        [(0, { user_id := p, workspace_id := w1, connected_at := now1,
               subscriptions := [w2] }),
         (1, { user_id := p, workspace_id := w2, connected_at := now2,
               subscriptions := [] })] } : WSManager).workspace_connections p = some 0 := by
      rw [scan_eq_flat]
      show alookup (flatWC s2.workspace_connections) p = some 0
      rw [hwc2]
      simp [flatWC, alookup]
    simp only [leave_room, hscan2b, hpr2, htr2]
    simp [alookup, sdiscard, getConn, ainsert, hpr2, htr2]
  have hsys3 : (disconnect allOk p w1 5 s2).st.system_connections = [] := by
    rw [hst3]
    show (disconnect_registry p w1 s2).system_connections = []
    rw [disconnect_registry_sys p w1 s2 hlw2 hlu2, hsys2]
    simp [aerase]
  have hwc3 : (disconnect allOk p w1 5 s2).st.workspace_connections
      = [(w1, []), (w2, [(p, 1)])] := by
    rw [hst3]
    show (disconnect_registry p w1 s2).workspace_connections = _
    rw [disconnect_registry_wc p w1 s2 hlw2 hlu2, hwc2]
    simp [ainsert, aerase, alookup]
  have hheap3 : (disconnect allOk p w1 5 s2).st.conn_heap
      = [(0, { user_id := p, workspace_id := w1, connected_at := now1,
               subscriptions := [] }),
         (1, { user_id := p, workspace_id := w2, connected_at := now2,
               subscriptions := [] })] := by
    rw [hst3]
    show (disconnect_registry p w1 s2).conn_heap = _
    rw [(disconnect_registry_fields p w1 s2 hlw2 hlu2).2.1, hfold]
  generalize hgen3 : (disconnect allOk p w1 5 s2).st = s3 at hsys3 hwc3 hheap3 ⊢
  refine ⟨?_, ?_, ?_, ?_, ?_⟩
  · rw [hsys3]
    rfl
  · intro msg fuel hf
    exact spm_ok_absent allOk p msg fuel s3 hf (by rw [hsys3]; rfl)
  · rw [hwc3]
    simp [alookup, Ne.symm hne]
  · rw [getConn, hheap3]
    simp [alookup]
  · intro msg
    have hlen : ((alookup s3.workspace_connections w2).getD []).length + 2 ≤ 5 := by
      rw [hwc3]
      simp [alookup, Ne.symm hne]
    rw [broadcast_ws_ok allOk hsend w2 msg none 5 s3 hlen]
    simp only [hwc3]
    simp [alookup, keptBy, Ne.symm hne]

/-- C9 witness: the silent drop at concrete principals and workspaces. -/
theorem C9_witness :
    alookup (disconnect allOk "p" "w1" 5
        (connect allOk 1 "p" "w2" 5
          (connect allOk 0 "p" "w1" 5 initWS).st).st).st.system_connections "p" = none :=
  (C9_send_to_principal_silently_dropped "p" "w1" "w2" 0 1 (by decide)).1

/-- C7 (amended): a typing signal for a known principal sets the typing
flag, schedules the 10-second reset task (30 seconds for editing), and
broadcasts user_activity_updated to the workspace excluding the actor; once
the reset task fires with no further external action the flag is cleared,
the principal is absent from the workspace's active-typer set, and
user_typing_stopped is broadcast to every workspace member with no
exclusion — the acting principal included. -/
theorem C7_typing_indicator_expiry (env : Env) (henv : ∀ u, env.sendOk u = true)
    (uid : String) (fuel : Nat) (ps : PresenceService) (ws : WSManager)
    (pr : UserPresence) (hpr : alookup ps.user_presence uid = some pr)
    (hnd : (akeys ps.user_presence).Nodup)
    (hfuel : ((alookup ws.workspace_connections pr.workspace_id).getD []).length + 2 ≤ fuel) :
    alookup (update_activity env uid "typing" fuel ps ws).1.user_presence uid
        = some { pr with is_typing := true } ∧
    ResetTask.typing uid 10 ∈ (update_activity env uid "typing" fuel ps ws).1.pending_resets ∧
    ResetTask.editing uid 30 ∈ (update_activity env uid "editing" fuel ps ws).1.pending_resets ∧
    (update_activity env uid "typing" fuel ps ws).2.exc = none ∧
    Effect.sent uid (activityMsg uid "typing" pr.workspace_id)
        ∉ (update_activity env uid "typing" fuel ps ws).2.log ∧
    alookup (reset_typing_indicator env uid fuel
        (update_activity env uid "typing" fuel ps ws).1 ws).1.user_presence uid
        = some { pr with is_typing := false } ∧
    uid ∉ activeTypers (reset_typing_indicator env uid fuel
        (update_activity env uid "typing" fuel ps ws).1 ws).1 pr.workspace_id ∧
    (reset_typing_indicator env uid fuel
        (update_activity env uid "typing" fuel ps ws).1 ws).2.exc = none ∧
    ∀ u, u ∈ wsMembers ws pr.workspace_id →
      Effect.sent u (typingStoppedMsg uid pr.workspace_id)
        ∈ (reset_typing_indicator env uid fuel
            (update_activity env uid "typing" fuel ps ws).1 ws).2.log := by
  have hup : update_activity env uid "typing" fuel ps ws
      = ({ ps with
            user_presence := ainsert ps.user_presence uid { pr with is_typing := true }
            pending_resets := ps.pending_resets ++ [ResetTask.typing uid 10] },
         broadcast_to_workspace env pr.workspace_id
           (activityMsg uid "typing" pr.workspace_id) (some uid) fuel ws) := by
    simp [update_activity, hpr]
  have hupE : update_activity env uid "editing" fuel ps ws
      = ({ ps with
            user_presence := ainsert ps.user_presence uid { pr with is_editing := true }
            pending_resets := ps.pending_resets ++ [ResetTask.editing uid 30] },
         broadcast_to_workspace env pr.workspace_id
           (activityMsg uid "editing" pr.workspace_id) (some uid) fuel ws) := by
    simp [update_activity, hpr]
  have hlook1 : alookup (ainsert ps.user_presence uid { pr with is_typing := true }) uid
      = some { pr with is_typing := true } := by
    simp [alookup_ainsert]
  have hre : reset_typing_indicator env uid fuel
      (update_activity env uid "typing" fuel ps ws).1 ws
      = ({ ps with
            user_presence := ainsert (ainsert ps.user_presence uid { pr with is_typing := true })
              uid { pr with is_typing := false }
            pending_resets := ps.pending_resets ++ [ResetTask.typing uid 10] },
         broadcast_to_workspace env pr.workspace_id
           (typingStoppedMsg uid pr.workspace_id) none fuel ws) := by
    rw [hup]
    simp [reset_typing_indicator, hlook1]
  refine ⟨?_, ?_, ?_, ?_, ?_, ?_, ?_, ?_, ?_⟩
  · rw [hup]
    exact hlook1
  · rw [hup]
    simp
  · rw [hupE]
    simp
  · rw [hup, broadcast_ws_ok env henv pr.workspace_id
        (activityMsg uid "typing" pr.workspace_id) (some uid) fuel ws hfuel]
  · rw [hup, broadcast_ws_ok env henv pr.workspace_id
        (activityMsg uid "typing" pr.workspace_id) (some uid) fuel ws hfuel]
    intro hmem
    obtain ⟨e, he, heq⟩ := List.mem_map.mp hmem
    have h1 : e.1 = uid := by
      simp only [Effect.sent.injEq] at heq
      exact heq.1
    have h2 := (List.mem_filter.mp he).2
    rw [h1] at h2
    simp at h2
  · rw [hre]
    simp [alookup_ainsert]
  · rw [hre]
    intro hmem
    simp only [activeTypers] at hmem
    obtain ⟨e, he, hfst⟩ := List.mem_map.mp hmem
    have hef := List.mem_filter.mp he
    have hnd2 : (akeys (ainsert (ainsert ps.user_presence uid { pr with is_typing := true })
        uid { pr with is_typing := false })).Nodup :=
      nodup_akeys_ainsert _ _ (nodup_akeys_ainsert _ _ hnd)
    have hlk : alookup (ainsert (ainsert ps.user_presence uid { pr with is_typing := true })
        uid { pr with is_typing := false }) uid = some { pr with is_typing := false } := by
      simp [alookup_ainsert]
    have hal := alookup_eq_of_mem_of_nodup hnd2
      (show (e.1, e.2) ∈ _ from by simpa using hef.1)
    rw [hfst, hlk] at hal
    injection hal with h3
    have htyp : e.2.is_typing = true := by
      have hb := hef.2
      simp only [Bool.and_eq_true, beq_iff_eq] at hb
      exact hb.2
    rw [← h3] at htyp
    simp at htyp
  · rw [hre, broadcast_ws_ok env henv pr.workspace_id
        (typingStoppedMsg uid pr.workspace_id) none fuel ws hfuel]
  · intro u hu
    rw [hre, broadcast_ws_ok env henv pr.workspace_id
        (typingStoppedMsg uid pr.workspace_id) none fuel ws hfuel]
    simp only [keptBy_none]
    simp only [wsMembers, akeys_eq] at hu
    obtain ⟨e, he, hfst⟩ := List.mem_map.mp hu
    exact List.mem_map.mpr ⟨e, he, by rw [hfst]⟩

/-- C7 counterexample: the expiry broadcast passes no exclusion, so the
acting principal receives its own user_typing_stopped event, refuting the
excluding-the-actor part of the claim. -/
theorem C7_counterexample :
    Effect.sent "p" (typingStoppedMsg "p" "w")
      ∈ (reset_typing_indicator allOk "p" 9
          ((update_activity allOk "p" "typing" 9
            { user_presence := [("p", { user_id := "p", workspace_id := "w", is_typing := false, is_editing := false })], pending_resets := [] }
            (run [Op.connectOp 0 "p" "w", Op.connectOp 1 "q" "w"])).1)
          (run [Op.connectOp 0 "p" "w", Op.connectOp 1 "q" "w"])).2.log := by decide

/-- C7 witness: the amended set-then-expire behaviour at a concrete
presence service and registry. -/
theorem C7_witness :
    alookup (update_activity allOk "p" "typing" 9
      { user_presence := [("p", { user_id := "p", workspace_id := "w", is_typing := false, is_editing := false })], pending_resets := [] }
      (run [Op.connectOp 0 "p" "w", Op.connectOp 1 "q" "w"])).1.user_presence "p"
      = some { user_id := "p", workspace_id := "w", is_typing := true, is_editing := false } :=
  (C7_typing_indicator_expiry allOk (fun _ => rfl) "p" 9
    { user_presence := [("p", { user_id := "p", workspace_id := "w", is_typing := false, is_editing := false })], pending_resets := [] }
    (run [Op.connectOp 0 "p" "w", Op.connectOp 1 "q" "w"])
    { user_id := "p", workspace_id := "w", is_typing := false, is_editing := false }
    (by decide) (by decide) (by decide)).1

end WS
